import Mathlib

/-!
Verification of `kaggle-classification/bin/eval_on_gold.py`.

The script is a linear evaluation pipeline over a pandas DataFrame:
load gold CSV → `score_gold` (model inference, one score column per label)
→ `eval_gold` (avg abs diff + ROC AUC metrics) → write scored CSV and a
metrics JSON.  We embed the DataFrame manipulations shallowly:

* a cell holds a string, an integer or a float; after `pd.read_csv` with
  type inference, a cell that is still a string is a genuinely non-numeric
  string (numeric-looking text has already become `int`/`float`), so
  `astype(float64)` on a string cell is modelled as an error;
* floats are modelled as exact rationals (no NaN arises in the pipeline:
  every float produced is a model score, a gold value or |score - gold|);
* a DataFrame is a column-name list plus rows of cells; `df[c]` on a
  missing column, an out-of-range positional access, and every other
  Python exception are modelled by `Option` (`none` = the exception
  propagates, no output files are written, as in section 7 of the spec);
* the Python `dict` is an insertion-ordered association list with unique
  keys: `d[k] = v` overwrites in place when `k` exists, else appends;
* file I/O (`tf.gfile`, `read_csv`, `to_csv`, `json.dumps`) is out of
  scope: `main` takes the loaded gold DataFrame and returns the pair
  (scored CSV contents, metrics JSON contents).
-/

attribute [local semireducible] Rat.mul Rat.inv Rat.add Rat.sub

/-- A pandas cell after `read_csv` type inference. -/
inductive Value where
  | str (s : String)
  | int (n : ℤ)
  | float (q : ℚ)
deriving DecidableEq, Repr

/-- Pandas `==` between two cells: numbers compare by value across
`int`/`float` dtypes, strings compare as strings, a string never equals a
number. -/
def Value.eqv : Value → Value → Bool
  | .str a, .str b => a == b
  | .int a, .int b => a == b
  | .float a, .float b => a == b
  | .int a, .float b => ((a : ℚ) == b)
  | .float a, .int b => (a == (b : ℚ))
  | _, _ => false

/-- Pandas `cell == q` against a numeric literal, as used by
`isin([0,1])`: true only for a numeric cell with that value. -/
def Value.numEq : Value → ℚ → Bool
  | .int n, q => ((n : ℚ) == q)
  | .float p, q => (p == q)
  | .str _, _ => false

/-- A cell used where Python needs a `str` (dict-key concatenation,
column lookup); a non-string raises `TypeError`. -/
def Value.asStr : Value → Option String
  | .str s => some s
  | _ => none

/-- A cell used where numpy needs a number (subtraction, `roc_auc_score`);
a string raises. -/
def Value.asNum : Value → Option ℚ
  | .int n => some ((n : ℚ))
  | .float q => some q
  | .str _ => none

/-- One cell of `astype(float64)`: ints convert, floats stay, a
(non-numeric, see module docstring) string raises `ValueError`. -/
def Value.toFloat : Value → Option Value
  | .int n => some (.float ((n : ℚ)))
  | .float q => some (.float q)
  | .str _ => none

/-- A pandas DataFrame: named columns over rows of cells. -/
structure DataFrame where
  cols : List String
  rows : List (List Value)
deriving DecidableEq, Repr

/-- Position of the first column named `c`, `none` = `KeyError`. -/
def colIdx : List String → String → Option Nat
  | [], _ => none
  | c0 :: rest, c => if c0 = c then some 0 else (colIdx rest c).map (· + 1)

/-- `row[c]`: the cell of `row` in column `c` (first matching column),
`none` = `KeyError` / missing cell. -/
def getCell (cols : List String) (row : List Value) (c : String) : Option Value := do
  let i ← colIdx cols c
  row[i]?

/-- Evaluate a list comprehension whose body may raise: the first
exception (`none`) propagates. -/
def mapO {α β : Type} (f : α → Option β) : List α → Option (List β)
  | [] => some []
  | a :: l => do
    let b ← f a
    let bs ← mapO f l
    pure (b :: bs)

/-- `df[c]` as a whole column; `none` = `KeyError`. -/
def colCells (df : DataFrame) (c : String) : Option (List Value) :=
  mapO (fun r => getCell df.cols r c) df.rows

/-- Boolean-mask row filter `df[mask]`. -/
def filterRows (df : DataFrame) (p : List Value → Bool) : DataFrame :=
  ⟨df.cols, df.rows.filter p⟩

/-- The boolean mask `df[c] == v` for one row, as used by the label and
name slices of `eval_gold`. -/
def maskEq (cols : List String) (c : String) (v : Value) (r : List Value) : Bool :=
  match getCell cols r c with
  | some w => w.eqv v
  | none => false

/-- The mask `df['gold'].isin([0,1])` for one row. -/
def goldIn01 (cols : List String) (row : List Value) : Bool :=
  match getCell cols row "gold" with
  | some v => v.numEq 0 || v.numEq 1
  | none => false

/-- The per-row score lookup `row[row['label']]`: reads the `label` cell,
which must be a string naming a column of the frame. -/
def rowLabelCell (cols : List String) (row : List Value) : Option Value := do
  let lv ← getCell cols row "label"
  let ls ← lv.asStr
  getCell cols row ls

/-- Mann–Whitney credit of one (positive-score, negative-score) pair:
1 if ranked correctly, 1/2 on a tie, 0 otherwise. -/
def pairCredit (s t : ℚ) : ℚ := if t < s then 1 else if t = s then 1/2 else 0

/-- `sklearn.metrics.roc_auc_score y_true y_score` for binary `y_true`
(entries are 0 or 1 here, 1 = positive class): the average Mann–Whitney
credit over all positive/negative pairs; raises (`none`) when only one
class is present, in particular on empty input. -/
def rocAuc (trues scores : List ℚ) : Option ℚ :=
  let pairs := trues.zip scores
  let pos := (pairs.filter (fun p => p.1 == 1)).map Prod.snd
  let neg := (pairs.filter (fun p => p.1 != 1)).map Prod.snd
  if pos.isEmpty || neg.isEmpty then none
  else some ((pos.map (fun s => (neg.map (fun t => pairCredit s t)).sum)).sum
              / ((pos.length * neg.length : ℕ) : ℚ))

/-- `calculate_auc` (eval_on_gold.py lines 30–44): keep only rows whose
gold value is 0 or 1, collect `y_score = row[row['label']]` and
`y_true = df['gold']`, and return their ROC AUC. -/
def calculate_auc (df : DataFrame) : Option ℚ := do
  let _ ← colCells df "gold"
  let kept := df.rows.filter (goldIn01 df.cols)
  let yScore ← mapO (fun r => rowLabelCell df.cols r) kept
  let yTrueCells ← mapO (fun r => getCell df.cols r "gold") kept
  let yTrue ← mapO Value.asNum yTrueCells
  let scores ← mapO Value.asNum yScore
  rocAuc yTrue scores

/-- The external `ModelRunner`: output-head names and a deterministic
`predict` giving one score per head for a comment text. -/
structure Model where
  labels : List String
  predict : String → List ℚ

/-- `score_gold` (lines 46–55): score `df_gold['comment_text']` with the
model and prepend one score column per label
(`pd.concat([df_scores, df_gold], axis=1)`). -/
def score_gold (df_gold : DataFrame) (model : Model) : Option DataFrame := do
  let texts ← colCells df_gold "comment_text"
  let strs ← mapO Value.asStr texts
  let scores := strs.map model.predict
  some ⟨model.labels ++ df_gold.cols,
        (scores.zip df_gold.rows).map (fun p => (p.1.map Value.float) ++ p.2)⟩

/-- `df[c] = df[c].astype(float64)` applied to column `c`. -/
def astypeFloatCol (df : DataFrame) (c : String) : Option DataFrame := do
  let i ← colIdx df.cols c
  let rows ← mapO (fun r => do
    let cell ← r[i]?
    let f ← cell.toFloat
    pure (r.set i f)) df.rows
  pure (⟨df.cols, rows⟩ : DataFrame)

/-- One row of the `abs_gold_diff` list comprehension (lines 68–70):
`np.abs(row[row['label']] - row['gold'])`. -/
def rowAbsDiff (cols : List String) (row : List Value) : Option ℚ := do
  let sv ← rowLabelCell cols row
  let s ← sv.asNum
  let gv ← getCell cols row "gold"
  let g ← gv.asNum
  pure |s - g|

/-- `df[c] = vals`: overwrite column `c` in place when it exists,
otherwise append it as a new last column. -/
def setColumn (df : DataFrame) (c : String) (vals : List Value) : DataFrame :=
  match colIdx df.cols c with
  | some i => ⟨df.cols, (df.rows.zip vals).map (fun p => p.1.set i p.2)⟩
  | none => ⟨df.cols ++ [c], (df.rows.zip vals).map (fun p => p.1 ++ [p.2])⟩

/-- `Series.mean()` over the (NaN-free, see module docstring) diff
column. -/
def listMean (l : List ℚ) : ℚ := l.sum / ((l.length : ℕ) : ℚ)

/-- Helper for `uniqueFirst`: drop any value eqv-equal to an already
seen one. -/
def uniqueFirstAux : List Value → List Value → List Value
  | _, [] => []
  | seen, v :: rest =>
    if seen.any (fun w => w.eqv v) then uniqueFirstAux seen rest
    else v :: uniqueFirstAux (v :: seen) rest

/-- `Series.unique()`: distinct values in order of first occurrence,
under pandas equality `Value.eqv`. -/
def uniqueFirst (l : List Value) : List Value := uniqueFirstAux [] l

/-- Python-dict insertion `d[k] = v`: overwrite the existing entry in
place, else append. -/
def dictInsert {α : Type} : List (String × α) → String → α → List (String × α)
  | [], k, v => [(k, v)]
  | (k0, v0) :: rest, k, v =>
    if k0 = k then (k0, v) :: rest else (k0, v0) :: dictInsert rest k v

/-- Python-dict lookup `d[k]`. -/
def dictGet {α : Type} (d : List (String × α)) (k : String) : Option α :=
  (d.find? (fun p => p.1 == k)).map Prod.snd

/-- Insert a sequence of `d[k] = v` assignments in order. -/
def dictOfEntries {α : Type} (init : List (String × α)) (es : List (String × α)) :
    List (String × α) :=
  es.foldl (fun d p => dictInsert d p.1 p.2) init

/-- The body of the inner loop of `eval_gold` (lines 80–86) for one
`name` value of the unique names of `df_label`: `results['auc_'+label]`
on the whole label slice when `name == label`, else
`results['auc_'+label+'_'+name]` on `df_label[df_label['name'] == name]`. -/
def entryFor (dfLabel : DataFrame) (labelV nameV : Value) : Option (String × ℚ) :=
  if nameV.eqv labelV then do
    let ls ← labelV.asStr
    let a ← calculate_auc dfLabel
    pure ("auc_" ++ ls, a)
  else do
    let ls ← labelV.asStr
    let ns ← nameV.asStr
    let a ← calculate_auc (filterRows dfLabel (maskEq dfLabel.cols "name" nameV))
    pure ("auc_" ++ ls ++ "_" ++ ns, a)

/-- The body of the outer loop of `eval_gold` (lines 75–86) for one
`label` value: slice `df[df['label'] == label]`, read
`df_label['name'].unique()` (`KeyError` when there is no name column),
and emit the entry of each unique name. -/
def labelEntries (df : DataFrame) (labelV : Value) : Option (List (String × ℚ)) := do
  let dfLabel := filterRows df (maskEq df.cols "label" labelV)
  let names ← colCells dfLabel "name"
  mapO (entryFor dfLabel labelV) (uniqueFirst names)

/-- All per-label/per-name dict assignments of `eval_gold`, in loop
order. -/
def aucEntries (df : DataFrame) : Option (List (String × ℚ)) := do
  let labels ← colCells df "label"
  let ess ← mapO (labelEntries df) (uniqueFirst labels)
  pure ess.flatten

/-- `eval_gold` (lines 57–88).  It mutates its argument — converts
`gold` to float64 and adds the `abs_gold_diff` column — so the embedding
returns the mutated frame together with the results dict. -/
def eval_gold (df : DataFrame) : Option (DataFrame × List (String × ℚ)) := do
  let df1 ← astypeFloatCol df "gold"
  let diffs ← mapO (rowAbsDiff df1.cols) df1.rows
  let df2 := setColumn df1 "abs_gold_diff" (diffs.map Value.float)
  let aucAll ← calculate_auc df2
  let entries ← aucEntries df2
  pure (df2, dictOfEntries []
    (("avg_diff", listMean diffs) :: ("auc_all", aucAll) :: entries))

/-- `main` (lines 93–123) after the gold CSV is loaded: score, evaluate,
add `gold_path` to the results, and return (scored CSV contents, metrics
JSON contents).  `none` = an exception escaped and no output file was
written.  (Named `main_fn`: Lean reserves `main` for executables.) -/
def main_fn (dfGold : DataFrame) (model : Model) (goldPath : String) :
    Option (DataFrame × List (String × Value)) := do
  let scored ← score_gold dfGold model
  let (df2, results) ← eval_gold scored
  let json := dictInsert (results.map (fun p => (p.1, Value.float p.2)))
    "gold_path" (Value.str goldPath)
  pure (df2, json)

/-- No duplicates among a list of dict keys. -/
def nodupKeys : List String → Bool
  | [] => true
  | k :: ks => !(ks.contains k) && nodupKeys ks

/-- Spec section 3 invariant: every row's `label` value is (a string)
among the model's output-head names. -/
def labelsMatch (g : DataFrame) (m : Model) : Bool :=
  g.rows.all (fun r => match getCell g.cols r "label" with
    | some (Value.str s) => m.labels.contains s
    | _ => false)

/-- All per-row score lookups `row[row['label']]` on a frame succeed. -/
@[reducible] def rowLookupsOk (df : DataFrame) : Prop :=
  ∀ r ∈ df.rows, (rowLabelCell df.cols r).isSome = true

/-- After the `isin([0,1])` filter the remaining gold labels are a single
class (or there are none): exactly the situation where
`metrics.roc_auc_score` is undefined. -/
def oneClassAfterFilter (df : DataFrame) : Bool :=
  let kept := df.rows.filter (goldIn01 df.cols)
  kept.all (fun r => match getCell df.cols r "gold" with
    | some v => v.numEq 1
    | none => true) ||
  kept.all (fun r => match getCell df.cols r "gold" with
    | some v => !(v.numEq 1)
    | none => true)

/-! Concrete frames and models used by witnesses and counterexamples. -/

/-- A small well-behaved scored frame: one label `t` whose rows carry the
self-named subcategory `t`. -/
def dfA : DataFrame :=
  ⟨["t", "comment_text", "label", "gold", "name"],
   [[Value.float (4/5), Value.str "x", Value.str "t", Value.int 1, Value.str "t"],
    [Value.float (3/10), Value.str "y", Value.str "t", Value.int 0, Value.str "t"]]⟩

/-- The frame `eval_gold` returns for `dfA`. -/
def dfA_out : DataFrame :=
  ⟨["t", "comment_text", "label", "gold", "name", "abs_gold_diff"],
   [[Value.float (4/5), Value.str "x", Value.str "t", Value.float 1, Value.str "t",
     Value.float (1/5)],
    [Value.float (3/10), Value.str "y", Value.str "t", Value.float 0, Value.str "t",
     Value.float (3/10)]]⟩

/-- The results dict `eval_gold` returns for `dfA`. -/
def resultsA : List (String × ℚ) :=
  [("avg_diff", 1/4), ("auc_all", 1), ("auc_t", 1)]

/-- A scored frame on which two distinct label/name combinations,
(`a`, `b_c`) and (`a_b`, `c`), build the same dict key `auc_a_b_c`. -/
def dfC : DataFrame :=
  ⟨["a", "a_b", "comment_text", "label", "gold", "name"],
   [[Value.float (9/10), Value.float (1/2), Value.str "c1", Value.str "a",
     Value.int 1, Value.str "b_c"],
    [Value.float (1/10), Value.float (1/2), Value.str "c2", Value.str "a",
     Value.int 0, Value.str "b_c"],
    [Value.float (1/2), Value.float (1/5), Value.str "c3", Value.str "a_b",
     Value.int 1, Value.str "c"],
    [Value.float (1/2), Value.float (7/10), Value.str "c4", Value.str "a_b",
     Value.int 0, Value.str "c"]]⟩

/-- The frame `eval_gold` returns for `dfC`. -/
def dfC_out : DataFrame :=
  ⟨["a", "a_b", "comment_text", "label", "gold", "name", "abs_gold_diff"],
   [[Value.float (9/10), Value.float (1/2), Value.str "c1", Value.str "a",
     Value.float 1, Value.str "b_c", Value.float (1/10)],
    [Value.float (1/10), Value.float (1/2), Value.str "c2", Value.str "a",
     Value.float 0, Value.str "b_c", Value.float (1/10)],
    [Value.float (1/2), Value.float (1/5), Value.str "c3", Value.str "a_b",
     Value.float 1, Value.str "c", Value.float (4/5)],
    [Value.float (1/2), Value.float (7/10), Value.str "c4", Value.str "a_b",
     Value.float 0, Value.str "c", Value.float (7/10)]]⟩

/-- A gold frame (unscored) whose only label `t` never has `name` equal
to the label: its rows all carry subcategory `b`. -/
def mGold : DataFrame :=
  ⟨["comment_text", "label", "gold", "name"],
   [[Value.str "x", Value.str "t", Value.int 1, Value.str "b"],
    [Value.str "y", Value.str "t", Value.int 0, Value.str "b"]]⟩

/-- A single-head model for `mGold`. -/
def mT : Model := ⟨["t"], fun s => [if s == "x" then (4/5 : ℚ) else (3/10)]⟩

/-- The gold data of the usage example in the header comment of
`eval_on_gold.py` (lines 9–15): columns
`comment_text,label,gold,_unit_id`, no `name` column. -/
def dfHeaderExample : DataFrame :=
  ⟨["comment_text", "label", "gold", "_unit_id"],
   [[Value.str "..and kill things", Value.str "threat", Value.int 0, Value.int 15190],
    [Value.str "Die!", Value.str "threat", Value.int 1, Value.int 15193],
    [Value.str "FU", Value.str "obscene", Value.int 1, Value.int 15089],
    [Value.str "Have an apple", Value.str "flirtation", Value.int 0, Value.int 15789]]⟩

/-- A model whose heads cover the labels of `dfHeaderExample`. -/
def mHeader : Model := ⟨["threat", "obscene", "flirtation"], fun _ => [1/5, 3/10, 2/5]⟩

/-- A gold frame whose `label` value names no column of the scored
frame: the score lookup `row[row['label']]` raises `KeyError`. -/
def badGold : DataFrame :=
  ⟨["comment_text", "label", "gold", "name"],
   [[Value.str "x", Value.str "zzz", Value.int 1, Value.str "zzz"]]⟩

/-- A model for `badGold`; its head `t` does not match the label `zzz`. -/
def badModel : Model := ⟨["t"], fun _ => [1/2]⟩

/-- A gold frame whose label value `label` is literally the name of a
model head: the precondition of the spec invariant holds, yet
`row['label']` on the scored frame hits the score column. -/
def lblGold : DataFrame :=
  ⟨["comment_text", "label", "gold"],
   [[Value.str "x", Value.str "label", Value.int 1]]⟩

/-- The model with a head named `label`. -/
def lblModel : Model := ⟨["label"], fun _ => [1/2]⟩

/-- A scored frame whose only gold value is 1: after the filter a single
class remains and `roc_auc_score` is undefined. -/
def dfOne : DataFrame :=
  ⟨["t", "comment_text", "label", "gold", "name"],
   [[Value.float (3/10), Value.str "z", Value.str "t", Value.int 1, Value.str "t"]]⟩

/-- The gold frame scoring to `dfOne` under `mT`. -/
def dfOneGold : DataFrame :=
  ⟨["comment_text", "label", "gold", "name"],
   [[Value.str "z", Value.str "t", Value.int 1, Value.str "t"]]⟩


/-- `dfA` plus a row whose gold value 3 is neither 0 nor 1: the AUC
filter drops it. -/
def dfMixed : DataFrame :=
  ⟨["t", "comment_text", "label", "gold", "name"],
   [[Value.float (4/5), Value.str "x", Value.str "t", Value.int 1, Value.str "t"],
    [Value.float (3/10), Value.str "y", Value.str "t", Value.int 0, Value.str "t"],
    [Value.float (1/2), Value.str "w", Value.str "t", Value.int 3, Value.str "t"]]⟩

/-- `dfOne` after the gold column is cast to float64. -/
def dfOne1 : DataFrame :=
  ⟨["t", "comment_text", "label", "gold", "name"],
   [[Value.float (3/10), Value.str "z", Value.str "t", Value.float 1, Value.str "t"]]⟩

/-- The scored form of `mGold` under `mT`: label `t`, subcategory `b`. -/
def dfB2 : DataFrame :=
  ⟨["t", "comment_text", "label", "gold", "name"],
   [[Value.float (4/5), Value.str "x", Value.str "t", Value.int 1, Value.str "b"],
    [Value.float (3/10), Value.str "y", Value.str "t", Value.int 0, Value.str "b"]]⟩

/-- The frame `eval_gold` returns for `dfB2`. -/
def dfB2_out : DataFrame :=
  ⟨["t", "comment_text", "label", "gold", "name", "abs_gold_diff"],
   [[Value.float (4/5), Value.str "x", Value.str "t", Value.float 1, Value.str "b",
     Value.float (1/5)],
    [Value.float (3/10), Value.str "y", Value.str "t", Value.float 0, Value.str "b",
     Value.float (3/10)]]⟩

/-- The results dict `eval_gold` returns for `dfB2`. -/
def resultsB : List (String × ℚ) :=
  [("avg_diff", 1/4), ("auc_all", 1), ("auc_t_b", 1)]

/-- The metrics JSON `main` writes for `mGold` under `mT`. -/
def jsonM : List (String × Value) :=
  [("avg_diff", Value.float (1/4)), ("auc_all", Value.float 1),
   ("auc_t_b", Value.float 1), ("gold_path", Value.str "gold.csv")]

/-- The scored form of `badGold` under `badModel`: its row's label value
`zzz` names no column. -/
def badScored : DataFrame :=
  ⟨["t", "comment_text", "label", "gold", "name"],
   [[Value.float (1/2), Value.str "x", Value.str "zzz", Value.int 1,
     Value.str "zzz"]]⟩

/-- The frame `eval_gold` returns for `dfMixed`. -/
def dfMixed_out : DataFrame :=
  ⟨["t", "comment_text", "label", "gold", "name", "abs_gold_diff"],
   [[Value.float (4/5), Value.str "x", Value.str "t", Value.float 1,
     Value.str "t", Value.float (1/5)],
    [Value.float (3/10), Value.str "y", Value.str "t", Value.float 0,
     Value.str "t", Value.float (3/10)],
    [Value.float (1/2), Value.str "w", Value.str "t", Value.float 3,
     Value.str "t", Value.float (5/2)]]⟩

/-- The results dict `eval_gold` returns for `dfMixed`: the gold-3 row
is excluded from every AUC but still contributes |1/2 - 3| to
`avg_diff`. -/
def resultsMix : List (String × ℚ) :=
  [("avg_diff", 1), ("auc_all", 1), ("auc_t", 1)]

/-! ### Lemmas: `Option` bind and `mapO` -/

theorem obind_eq_some {α β : Type} {o : Option α} {f : α → Option β} {b : β} :
    (do let a ← o; f a) = some b ↔ ∃ a, o = some a ∧ f a = some b := by
  cases o <;> simp

theorem mapO_cons_some {α β : Type} {f : α → Option β} {a : α} {l : List α}
    {res : List β} :
    mapO f (a :: l) = some res ↔
      ∃ b bs, f a = some b ∧ mapO f l = some bs ∧ res = b :: bs := by
  simp only [mapO]
  cases f a <;> cases mapO f l <;> simp [eq_comm]

theorem mapO_some_length {α β : Type} {f : α → Option β} {l : List α}
    {res : List β} (h : mapO f l = some res) : res.length = l.length := by
  induction l generalizing res with
  | nil => simp [mapO] at h; simp [← h]
  | cons a l ih =>
    obtain ⟨b, bs, _, hbs, rfl⟩ := mapO_cons_some.mp h
    simp [ih hbs]

theorem mapO_mem_fwd {α β : Type} {f : α → Option β} {l : List α} {res : List β}
    {a : α} (h : mapO f l = some res) (ha : a ∈ l) :
    ∃ b, f a = some b ∧ b ∈ res := by
  induction l generalizing res with
  | nil => simp at ha
  | cons x l ih =>
    obtain ⟨b, bs, hb, hbs, rfl⟩ := mapO_cons_some.mp h
    rcases List.mem_cons.mp ha with rfl | ha2
    · exact ⟨b, hb, List.mem_cons_self _ _⟩
    · obtain ⟨b2, hb2, hb2m⟩ := ih hbs ha2
      exact ⟨b2, hb2, List.mem_cons_of_mem _ hb2m⟩

theorem mapO_mem_rev {α β : Type} {f : α → Option β} {l : List α} {res : List β}
    {b : β} (h : mapO f l = some res) (hb : b ∈ res) :
    ∃ a ∈ l, f a = some b := by
  induction l generalizing res with
  | nil =>
    simp only [mapO, Option.some.injEq] at h
    subst h
    simp at hb
  | cons x l ih =>
    obtain ⟨b0, bs, hb0, hbs, rfl⟩ := mapO_cons_some.mp h
    rcases List.mem_cons.mp hb with rfl | hb2
    · exact ⟨x, List.mem_cons_self _ _, hb0⟩
    · obtain ⟨a, ham, ha⟩ := ih hbs hb2
      exact ⟨a, List.mem_cons_of_mem _ ham, ha⟩

theorem mapO_isSome {α β : Type} {f : α → Option β} {l : List α}
    (h : ∀ a ∈ l, (f a).isSome = true) : (mapO f l).isSome = true := by
  induction l with
  | nil => simp [mapO]
  | cons a l ih =>
    obtain ⟨b, hb⟩ := Option.isSome_iff_exists.mp (h a (List.mem_cons_self _ _))
    obtain ⟨bs, hbs⟩ := Option.isSome_iff_exists.mp
      (ih (fun x hx => h x (List.mem_cons_of_mem _ hx)))
    simp [mapO, hb, hbs]

theorem mapO_congr {α β : Type} {f g : α → Option β} {l : List α}
    (h : ∀ a ∈ l, f a = g a) : mapO f l = mapO g l := by
  induction l with
  | nil => rfl
  | cons a l ih =>
    simp only [mapO, h a (List.mem_cons_self _ _),
      ih (fun x hx => h x (List.mem_cons_of_mem _ hx))]

theorem mapO_comp_eq {α β : Type} {g : α → Option α} {k : α → Option β}
    {l l2 : List α} (hl : mapO g l = some l2)
    (hk : ∀ a ∈ l, ∀ b, g a = some b → k b = k a) :
    mapO k l2 = mapO k l := by
  induction l generalizing l2 with
  | nil => simp [mapO] at hl; simp [← hl]
  | cons a l ih =>
    obtain ⟨b, bs, hb, hbs, rfl⟩ := mapO_cons_some.mp hl
    have h1 : k b = k a := hk a (List.mem_cons_self _ _) b hb
    have h2 := ih hbs (fun x hx => hk x (List.mem_cons_of_mem _ hx))
    simp only [mapO, h1, h2]

theorem obind_none {α β : Type} {f : α → Option β} :
    (do let a ← (none : Option α); f a) = none := rfl

theorem obind_some {α β : Type} {a : α} {f : α → Option β} :
    (do let x ← some a; f x) = f a := rfl

/-! ### Lemmas: `Value` equality and coercions -/

theorem Value.eqv_refl (v : Value) : v.eqv v = true := by
  cases v <;> simp [Value.eqv]

theorem Value.eqv_symm {v w : Value} (h : v.eqv w = true) : w.eqv v = true := by
  cases v <;> cases w <;> simp_all [Value.eqv]

theorem Value.eqv_str_iff {v : Value} {s : String} :
    v.eqv (Value.str s) = true ↔ v = Value.str s := by
  cases v <;> simp [Value.eqv]

theorem Value.asNum_toFloat {v f : Value} (h : v.toFloat = some f) :
    f.asNum = v.asNum := by
  cases v <;> simp [Value.toFloat] at h <;> subst h <;> simp [Value.asNum]

theorem Value.asStr_toFloat {v f : Value} (h : v.toFloat = some f) :
    f.asStr = none ∧ v.asStr = none := by
  cases v <;> simp [Value.toFloat] at h <;> subst h <;> simp [Value.asStr]

/-! ### Lemmas: column positions -/

theorem colIdx_get {cols : List String} {c : String} {i : Nat}
    (h : colIdx cols c = some i) : cols[i]? = some c := by
  induction cols generalizing i with
  | nil => simp [colIdx] at h
  | cons c0 rest ih =>
    by_cases hc : c0 = c
    · simp [colIdx, hc] at h
      subst hc
      simp [← h]
    · simp only [colIdx, hc, if_false, Option.map_eq_some'] at h
      obtain ⟨j, hj, rfl⟩ := h
      simpa using ih hj

theorem colIdx_lt {cols : List String} {c : String} {i : Nat}
    (h : colIdx cols c = some i) : i < cols.length := by
  have h2 := colIdx_get h
  by_contra hge
  rw [List.getElem?_eq_none (by omega)] at h2
  exact Option.noConfusion h2

theorem colIdx_isSome_iff {cols : List String} {c : String} :
    (colIdx cols c).isSome = true ↔ c ∈ cols := by
  induction cols with
  | nil => simp [colIdx]
  | cons c0 rest ih =>
    by_cases hc : c0 = c
    · simp [colIdx, hc]
    · simp [colIdx, hc, Option.isSome_map', ih, Ne.symm hc]

theorem colIdx_append_left {cols ds : List String} {c : String} {i : Nat}
    (h : colIdx cols c = some i) : colIdx (cols ++ ds) c = some i := by
  induction cols generalizing i with
  | nil => simp [colIdx] at h
  | cons c0 rest ih =>
    by_cases hc : c0 = c
    · simp_all [colIdx, hc]
    · simp only [colIdx, hc, if_false, Option.map_eq_some'] at h
      obtain ⟨j, hj, rfl⟩ := h
      simp [colIdx, hc, List.cons_append, ih hj]

theorem colIdx_append_none {cols ds : List String} {c : String}
    (h : colIdx cols c = none) :
    colIdx (cols ++ ds) c = (colIdx ds c).map (cols.length + ·) := by
  induction cols with
  | nil =>
    simp only [List.nil_append, List.length_nil]
    cases colIdx ds c <;> simp
  | cons c0 rest ih =>
    by_cases hc : c0 = c
    · simp [colIdx, hc] at h
    · have h2 : colIdx rest c = none := by
        simp only [colIdx, hc, if_false, Option.map_eq_none'] at h
        exact h
      rw [List.cons_append]
      show (if c0 = c then some 0 else (colIdx (rest ++ ds) c).map (· + 1)) = _
      rw [if_neg hc, ih h2]
      cases colIdx ds c with
      | none => rfl
      | some j =>
        simp only [Option.map_some', Option.some.injEq, List.length_cons]
        omega

theorem colIdx_ne_of_ne {cols : List String} {c d : String} {i j : Nat}
    (hc : colIdx cols c = some i) (hd : colIdx cols d = some j)
    (hne : c ≠ d) : i ≠ j := by
  intro he
  subst he
  have h1 := colIdx_get hc
  have h2 := colIdx_get hd
  rw [h1] at h2
  exact hne (Option.some_injective _ h2)

/-! ### Lemmas: `uniqueFirst` -/

theorem uniqueFirstAux_subset {seen l : List Value} {y : Value}
    (h : y ∈ uniqueFirstAux seen l) : y ∈ l := by
  induction l generalizing seen with
  | nil => simp [uniqueFirstAux] at h
  | cons v rest ih =>
    rw [uniqueFirstAux] at h
    split at h
    · exact List.mem_cons_of_mem _ (ih h)
    · rcases List.mem_cons.mp h with rfl | h2
      · exact List.mem_cons_self _ _
      · exact List.mem_cons_of_mem _ (ih h2)

theorem mem_uniqueFirstAux {x : Value} {l seen : List Value} (hx : x ∈ l)
    (hseen : ∀ w ∈ seen, w.eqv x = false) :
    ∃ y ∈ uniqueFirstAux seen l, y.eqv x = true := by
  induction l generalizing seen with
  | nil => simp at hx
  | cons v rest ih =>
    rw [uniqueFirstAux]
    by_cases hv : seen.any (fun w => w.eqv v) = true
    · rw [if_pos hv]
      rcases List.mem_cons.mp hx with rfl | hx2
      · obtain ⟨w, hw, hwx⟩ := List.any_eq_true.mp hv
        exact absurd hwx (by simp [hseen w hw])
      · exact ih hx2 hseen
    · rw [if_neg hv]
      by_cases hvx : v.eqv x = true
      · exact ⟨v, List.mem_cons_self _ _, hvx⟩
      · have hx2 : x ∈ rest := by
          rcases List.mem_cons.mp hx with rfl | hx2
          · exact absurd (Value.eqv_refl x) hvx
          · exact hx2
        obtain ⟨y, hy, hyx⟩ := ih hx2 (fun w hw => by
          rcases List.mem_cons.mp hw with rfl | hw2
          · exact Bool.eq_false_iff.mpr hvx
          · exact hseen w hw2)
        exact ⟨y, List.mem_cons_of_mem _ hy, hyx⟩

theorem uniqueFirst_subset {l : List Value} {y : Value}
    (h : y ∈ uniqueFirst l) : y ∈ l :=
  uniqueFirstAux_subset h

theorem str_mem_uniqueFirst {s : String} {l : List Value}
    (h : Value.str s ∈ l) : Value.str s ∈ uniqueFirst l := by
  obtain ⟨y, hy, hyx⟩ :=
    mem_uniqueFirstAux h (fun w hw => absurd hw (List.not_mem_nil w))
  rwa [Value.eqv_str_iff.mp hyx] at hy

/-! ### Lemmas: the Python dict -/

theorem dictGet_dictInsert_self {α : Type} {d : List (String × α)} {k : String}
    {v : α} : dictGet (dictInsert d k v) k = some v := by
  induction d with
  | nil => simp [dictInsert, dictGet]
  | cons p rest ih =>
    obtain ⟨k0, v0⟩ := p
    by_cases hk : k0 = k
    · simp [dictInsert, hk, dictGet]
    · simp only [dictInsert, hk, if_false]
      simpa [dictGet, List.find?_cons, hk] using ih

theorem dictGet_dictInsert_ne {α : Type} {d : List (String × α)} {k k2 : String}
    {v : α} (h : k ≠ k2) : dictGet (dictInsert d k v) k2 = dictGet d k2 := by
  induction d with
  | nil => simp [dictInsert, dictGet, List.find?_cons, h]
  | cons p rest ih =>
    obtain ⟨k0, v0⟩ := p
    by_cases hk : k0 = k
    · subst hk
      simp [dictInsert, dictGet, List.find?_cons, h]
    · simp only [dictInsert, hk, if_false]
      by_cases hk2 : k0 = k2
      · simp [dictGet, List.find?_cons, hk2]
      · simpa [dictGet, List.find?_cons, hk2] using ih

theorem mem_keys_dictInsert {α : Type} {d : List (String × α)} {k a : String}
    {v : α} :
    a ∈ (dictInsert d k v).map Prod.fst ↔ a ∈ d.map Prod.fst ∨ a = k := by
  induction d with
  | nil => simp [dictInsert]
  | cons p rest ih =>
    obtain ⟨k0, v0⟩ := p
    by_cases hk : k0 = k
    · subst hk
      rw [show dictInsert ((k0, v0) :: rest) k0 v = (k0, v) :: rest by
        simp [dictInsert]]
      simp only [List.map_cons, List.mem_cons]
      tauto
    · simp only [dictInsert, hk, if_false, List.map_cons, List.mem_cons, ih]
      tauto

theorem dictGet_dictOfEntries_not_mem {α : Type} {d es : List (String × α)}
    {k : String} (h : k ∉ es.map Prod.fst) :
    dictGet (dictOfEntries d es) k = dictGet d k := by
  induction es generalizing d with
  | nil => rfl
  | cons e rest ih =>
    simp only [List.map_cons, List.mem_cons] at h
    push_neg at h
    show dictGet (dictOfEntries (dictInsert d e.1 e.2) rest) k = _
    rw [ih h.2, dictGet_dictInsert_ne (fun he => h.1 he.symm)]

theorem dictGet_dictOfEntries_nodup {α : Type} {es : List (String × α)}
    {k : String} {v : α} (hnd : nodupKeys (es.map Prod.fst) = true)
    (hmem : (k, v) ∈ es) :
    ∀ d, dictGet (dictOfEntries d es) k = some v := by
  induction es with
  | nil => simp at hmem
  | cons e rest ih =>
    intro d
    simp only [List.map_cons, nodupKeys, Bool.and_eq_true,
      Bool.not_eq_true'] at hnd
    rcases List.mem_cons.mp hmem with rfl | h2
    · show dictGet (dictOfEntries (dictInsert d k v) rest) k = some v
      have hnm : k ∉ List.map Prod.fst rest := by
        intro hk
        have hc : (List.map Prod.fst rest).contains k = true :=
          List.contains_iff_exists_mem_beq.mpr ⟨k, hk, by simp⟩
        rw [hnd.1] at hc
        exact Bool.noConfusion hc
      rw [dictGet_dictOfEntries_not_mem hnm]
      exact dictGet_dictInsert_self
    · exact ih hnd.2 h2 _

theorem mem_keys_dictOfEntries {α : Type} {d es : List (String × α)}
    {a : String} :
    a ∈ (dictOfEntries d es).map Prod.fst ↔
      a ∈ d.map Prod.fst ∨ a ∈ es.map Prod.fst := by
  induction es generalizing d with
  | nil => simp [dictOfEntries]
  | cons e rest ih =>
    show a ∈ (dictOfEntries (dictInsert d e.1 e.2) rest).map Prod.fst ↔ _
    rw [ih, mem_keys_dictInsert]
    simp only [List.map_cons, List.mem_cons]
    tauto

/-! ### Lemmas: metric-key strings -/

theorem auc_key_ne_avg_diff (s : String) : "auc_" ++ s ≠ "avg_diff" := by
  intro h
  have h2 : ("auc_" ++ s).data = "avg_diff".data := congrArg String.data h
  rw [String.data_append] at h2
  simp only [List.cons_append, List.nil_append, List.cons.injEq] at h2
  exact absurd h2.2.1 (by decide)

theorem auc_key_ne_gold_path (s : String) : "auc_" ++ s ≠ "gold_path" := by
  intro h
  have h2 : ("auc_" ++ s).data = "gold_path".data := congrArg String.data h
  rw [String.data_append] at h2
  simp only [List.cons_append, List.nil_append, List.cons.injEq] at h2
  exact absurd h2.1 (by decide)

/-! ### Lemmas: unfolding the pipeline -/

@[simp] theorem filterRows_cols {df : DataFrame} {p : List Value → Bool} :
    (filterRows df p).cols = df.cols := rfl

@[simp] theorem filterRows_rows {df : DataFrame} {p : List Value → Bool} :
    (filterRows df p).rows = df.rows.filter p := rfl

theorem eval_gold_unfold {df df2 : DataFrame} {results : List (String × ℚ)}
    (h : eval_gold df = some (df2, results)) :
    ∃ df1 diffs aucAll entries,
      astypeFloatCol df "gold" = some df1 ∧
      mapO (rowAbsDiff df1.cols) df1.rows = some diffs ∧
      df2 = setColumn df1 "abs_gold_diff" (diffs.map Value.float) ∧
      calculate_auc df2 = some aucAll ∧
      aucEntries df2 = some entries ∧
      results = dictOfEntries []
        (("avg_diff", listMean diffs) :: ("auc_all", aucAll) :: entries) := by
  simp only [eval_gold, obind_eq_some, Option.pure_def, Option.some.injEq,
    Prod.mk.injEq] at h
  obtain ⟨df1, h1, diffs, h2, aucAll, h3, entries, h4, hdf2, hres⟩ := h
  subst hdf2
  exact ⟨df1, diffs, aucAll, entries, h1, h2, rfl, h3, h4, hres.symm⟩

theorem score_gold_unfold {g scored : DataFrame} {m : Model}
    (h : score_gold g m = some scored) :
    ∃ texts strs,
      colCells g "comment_text" = some texts ∧
      mapO Value.asStr texts = some strs ∧
      scored = ⟨m.labels ++ g.cols,
        ((strs.map m.predict).zip g.rows).map
          (fun p => (p.1.map Value.float) ++ p.2)⟩ := by
  simp only [score_gold, obind_eq_some, Option.some.injEq] at h
  obtain ⟨texts, h1, strs, h2, hs⟩ := h
  exact ⟨texts, strs, h1, h2, hs.symm⟩

theorem aucEntries_unfold {df : DataFrame} {entries : List (String × ℚ)}
    (h : aucEntries df = some entries) :
    ∃ labels ess,
      colCells df "label" = some labels ∧
      mapO (labelEntries df) (uniqueFirst labels) = some ess ∧
      entries = ess.flatten := by
  simp only [aucEntries, obind_eq_some, Option.pure_def, Option.some.injEq] at h
  obtain ⟨labels, h1, ess, h2, hres⟩ := h
  exact ⟨labels, ess, h1, h2, hres.symm⟩

theorem labelEntries_unfold {df : DataFrame} {lv : Value}
    {es : List (String × ℚ)} (h : labelEntries df lv = some es) :
    ∃ names,
      colCells (filterRows df (maskEq df.cols "label" lv)) "name" = some names ∧
      mapO (entryFor (filterRows df (maskEq df.cols "label" lv)) lv)
        (uniqueFirst names) = some es := by
  simp only [labelEntries, obind_eq_some] at h
  obtain ⟨names, h1, h2⟩ := h
  exact ⟨names, h1, h2⟩

theorem entryFor_some {dfL : DataFrame} {lv nv : Value} {e : String × ℚ}
    (h : entryFor dfL lv nv = some e) :
    (∃ ls a, lv.asStr = some ls ∧ nv.eqv lv = true ∧
      calculate_auc dfL = some a ∧ e = ("auc_" ++ ls, a)) ∨
    (∃ ls ns a, lv.asStr = some ls ∧ nv.asStr = some ns ∧ nv.eqv lv = false ∧
      calculate_auc (filterRows dfL (maskEq dfL.cols "name" nv)) = some a ∧
      e = ("auc_" ++ ls ++ "_" ++ ns, a)) := by
  by_cases hv : nv.eqv lv = true
  · left
    rw [entryFor, if_pos hv] at h
    simp only [obind_eq_some, Option.pure_def, Option.some.injEq] at h
    obtain ⟨ls, h1, a, h2, he⟩ := h
    exact ⟨ls, a, h1, hv, h2, he.symm⟩
  · right
    rw [entryFor, if_neg hv] at h
    simp only [obind_eq_some, Option.pure_def, Option.some.injEq] at h
    obtain ⟨ls, h1, ns, h2, a, h3, he⟩ := h
    exact ⟨ls, ns, a, h1, h2, Bool.eq_false_iff.mpr hv, h3, he.symm⟩

theorem entryFor_key {dfL : DataFrame} {lv nv : Value} {e : String × ℚ}
    (h : entryFor dfL lv nv = some e) : ∃ s, e.1 = "auc_" ++ s := by
  rcases entryFor_some h with ⟨ls, a, _, _, _, he⟩ | ⟨ls, ns, a, _, _, _, _, he⟩
  · exact ⟨ls, by rw [he]⟩
  · exact ⟨ls ++ "_" ++ ns, by rw [he]; simp [String.append_assoc]⟩

/-! ### Lemmas: membership of loop entries -/

theorem aucEntries_mem_fwd {df : DataFrame} {entries : List (String × ℚ)}
    {L : String} (he : aucEntries df = some entries)
    (hL : ∃ r ∈ df.rows, getCell df.cols r "label" = some (Value.str L)) :
    ∃ es, labelEntries df (Value.str L) = some es ∧ ∀ e ∈ es, e ∈ entries := by
  obtain ⟨labels, ess, h1, h2, rfl⟩ := aucEntries_unfold he
  obtain ⟨r, hr, hcell⟩ := hL
  obtain ⟨v, hv, hvm⟩ := mapO_mem_fwd h1 hr
  rw [hcell] at hv
  obtain rfl := Option.some_injective _ hv
  have hu : Value.str L ∈ uniqueFirst labels := str_mem_uniqueFirst hvm
  obtain ⟨es, hes, hesm⟩ := mapO_mem_fwd h2 hu
  exact ⟨es, hes, fun e hee => List.mem_flatten_of_mem hesm hee⟩

theorem aucEntries_mem_rev {df : DataFrame} {entries : List (String × ℚ)}
    {e : String × ℚ} (he : aucEntries df = some entries) (hmem : e ∈ entries) :
    ∃ lv es, (∃ r ∈ df.rows, getCell df.cols r "label" = some lv) ∧
      labelEntries df lv = some es ∧ e ∈ es := by
  obtain ⟨labels, ess, h1, h2, rfl⟩ := aucEntries_unfold he
  obtain ⟨es, hess, hees⟩ := List.mem_flatten.mp hmem
  obtain ⟨lv, hlvm, hlv⟩ := mapO_mem_rev h2 hess
  obtain ⟨r, hr, hcell⟩ := mapO_mem_rev h1 (uniqueFirst_subset hlvm)
  exact ⟨lv, es, ⟨r, hr, hcell⟩, hlv, hees⟩

theorem labelEntries_mem_fwd {df : DataFrame} {es : List (String × ℚ)}
    {L N : String} (he : labelEntries df (Value.str L) = some es)
    (hn : ∃ r ∈ (filterRows df (maskEq df.cols "label" (Value.str L))).rows,
            getCell df.cols r "name" = some (Value.str N)) :
    ∃ e, entryFor (filterRows df (maskEq df.cols "label" (Value.str L)))
          (Value.str L) (Value.str N) = some e ∧ e ∈ es := by
  obtain ⟨names, h1, h2⟩ := labelEntries_unfold he
  obtain ⟨r, hr, hcell⟩ := hn
  obtain ⟨v, hv, hvm⟩ := mapO_mem_fwd h1 hr
  rw [filterRows_cols, hcell] at hv
  obtain rfl := Option.some_injective _ hv
  have hu : Value.str N ∈ uniqueFirst names := str_mem_uniqueFirst hvm
  obtain ⟨e, hee, heem⟩ := mapO_mem_fwd h2 hu
  exact ⟨e, hee, heem⟩

theorem labelEntries_mem_rev {df : DataFrame} {lv : Value}
    {es : List (String × ℚ)} {e : String × ℚ}
    (he : labelEntries df lv = some es) (hmem : e ∈ es) :
    ∃ nv, (∃ r ∈ (filterRows df (maskEq df.cols "label" lv)).rows,
             getCell df.cols r "name" = some nv) ∧
      entryFor (filterRows df (maskEq df.cols "label" lv)) lv nv = some e := by
  obtain ⟨names, h1, h2⟩ := labelEntries_unfold he
  obtain ⟨nv, hnvm, hnv⟩ := mapO_mem_rev h2 hmem
  obtain ⟨r, hr, hcell⟩ := mapO_mem_rev h1 (uniqueFirst_subset hnvm)
  exact ⟨nv, ⟨r, hr, hcell⟩, hnv⟩

/-! ### Lemmas: `astype(float64)` commutes with the diff computation -/

theorem getCell_set_other {cols : List String} {row : List Value} {i : Nat}
    {f : Value} {c : String} (hg : colIdx cols "gold" = some i)
    (hc : c ≠ "gold") :
    getCell cols (row.set i f) c = getCell cols row c := by
  cases hcc : colIdx cols c with
  | none => simp [getCell, hcc]
  | some j =>
    have hij : i ≠ j := colIdx_ne_of_ne hg hcc (Ne.symm hc)
    simp [getCell, hcc, List.getElem?_set_ne hij]

theorem getCell_set_gold_comp {cols : List String} {row : List Value} {i : Nat}
    {cell f : Value} {c : String} (_hg : colIdx cols "gold" = some i)
    (hget : row[i]? = some cell) (hf : cell.toFloat = some f) :
    ((getCell cols (row.set i f) c).bind Value.asNum
       = (getCell cols row c).bind Value.asNum) ∧
    ((getCell cols (row.set i f) c).bind Value.asStr
       = (getCell cols row c).bind Value.asStr) := by
  cases hcc : colIdx cols c with
  | none => simp [getCell, hcc]
  | some j =>
    by_cases hij : i = j
    · subst hij
      have hlen : i < row.length := by
        by_contra hge
        rw [List.getElem?_eq_none (by omega)] at hget
        exact Option.noConfusion hget
      constructor <;>
        simp [getCell, hcc, List.getElem?_set, hlen, hget,
          Value.asNum_toFloat hf, (Value.asStr_toFloat hf).1,
          (Value.asStr_toFloat hf).2]
    · simp [getCell, hcc, List.getElem?_set_ne hij]

theorem rowAbsDiff_eq (cols : List String) (row : List Value) :
    rowAbsDiff cols row =
      (((getCell cols row "label").bind Value.asStr).bind
        (fun ls => getCell cols row ls)).bind (fun sv => sv.asNum.bind
          (fun s => ((getCell cols row "gold").bind Value.asNum).bind
            (fun g => some |s - g|))) := by
  rw [rowAbsDiff, rowLabelCell]
  cases getCell cols row "label" with
  | none => rfl
  | some lv =>
    rw [obind_some, Option.some_bind]
    cases lv.asStr with
    | none => rfl
    | some ls =>
      rw [obind_some, Option.some_bind]
      cases getCell cols row ls with
      | none => rfl
      | some sv =>
        rw [obind_some, Option.some_bind]
        cases sv.asNum with
        | none => rfl
        | some s =>
          rw [obind_some, Option.some_bind]
          cases getCell cols row "gold" with
          | none => rfl
          | some gv =>
            rw [obind_some, Option.some_bind]
            rfl

theorem rowAbsDiff_set_gold {cols : List String} {row : List Value} {i : Nat}
    {cell f : Value} (hg : colIdx cols "gold" = some i)
    (hget : row[i]? = some cell) (hf : cell.toFloat = some f) :
    rowAbsDiff cols (row.set i f) = rowAbsDiff cols row := by
  rw [rowAbsDiff_eq, rowAbsDiff_eq, getCell_set_other hg (by decide)]
  simp only [(getCell_set_gold_comp hg hget hf).1]
  cases (getCell cols row "label").bind Value.asStr with
  | none => rfl
  | some ls =>
    rw [Option.some_bind, Option.some_bind, ← Option.bind_assoc,
      ← Option.bind_assoc, (getCell_set_gold_comp hg hget hf).1]

theorem astypeFloatCol_unfold {df df1 : DataFrame} {c : String}
    (h : astypeFloatCol df c = some df1) :
    ∃ i rows, colIdx df.cols c = some i ∧
      mapO (fun r => do
        let cell ← r[i]?
        let f ← cell.toFloat
        pure (r.set i f)) df.rows = some rows ∧
      df1 = ⟨df.cols, rows⟩ := by
  simp only [astypeFloatCol, obind_eq_some, Option.pure_def,
    Option.some.injEq] at h
  obtain ⟨i, h1, rows, h2, h3⟩ := h
  exact ⟨i, rows, h1, h2, h3.symm⟩

theorem astype_diffs_eq {df df1 : DataFrame}
    (h : astypeFloatCol df "gold" = some df1) :
    mapO (rowAbsDiff df1.cols) df1.rows = mapO (rowAbsDiff df.cols) df.rows := by
  obtain ⟨i, rows, h1, h2, rfl⟩ := astypeFloatCol_unfold h
  show mapO (rowAbsDiff df.cols) rows = mapO (rowAbsDiff df.cols) df.rows
  refine mapO_comp_eq h2 (fun r hr b hb => ?_)
  simp only [obind_eq_some, Option.pure_def, Option.some.injEq] at hb
  obtain ⟨cell, hcell, f, hf, rfl⟩ := hb
  exact rowAbsDiff_set_gold h1 hcell hf

theorem aucEntries_keys {df : DataFrame} {entries : List (String × ℚ)}
    (he : aucEntries df = some entries) :
    ∀ e ∈ entries, ∃ s, e.1 = "auc_" ++ s := by
  intro e hee
  obtain ⟨lv, es, _, hle, hees⟩ := aucEntries_mem_rev he hee
  obtain ⟨nv, _, hef⟩ := labelEntries_mem_rev hle hees
  exact entryFor_key hef

theorem eval_gold_avg_diff_lookup {df df2 : DataFrame}
    {results : List (String × ℚ)} (h : eval_gold df = some (df2, results)) :
    ∃ diffs, mapO (rowAbsDiff df.cols) df.rows = some diffs ∧
      dictGet results "avg_diff" = some (listMean diffs) := by
  obtain ⟨df1, diffs, aucAll, entries, h1, h2, hdf2, h3, h4, hres⟩ :=
    eval_gold_unfold h
  refine ⟨diffs, ?_, ?_⟩
  · rw [← astype_diffs_eq h1]
    exact h2
  · subst hres
    have hnotm : "avg_diff" ∉ (("auc_all", aucAll) :: entries).map Prod.fst := by
      intro hmem
      simp only [List.map_cons, List.mem_cons] at hmem
      rcases hmem with heq | hmem2
      · exact absurd heq (by decide)
      · obtain ⟨e, hee, heq⟩ := List.mem_map.mp hmem2
        obtain ⟨s, hs⟩ := aucEntries_keys h4 e hee
        exact auc_key_ne_avg_diff s (hs.symm.trans heq)
    rw [show dictOfEntries ([] : List (String × ℚ))
          (("avg_diff", listMean diffs) :: ("auc_all", aucAll) :: entries)
        = dictOfEntries [("avg_diff", listMean diffs)]
          (("auc_all", aucAll) :: entries) from rfl]
    rw [dictGet_dictOfEntries_not_mem hnotm]
    simp [dictGet]

theorem getCell_isSome {cols : List String} {row : List Value} {c : String}
    {i : Nat} (hi : colIdx cols c = some i) (hlen : i < row.length) :
    (getCell cols row c).isSome = true := by
  simp [getCell, hi, List.getElem?_eq_getElem hlen]

/-! ### Claims -/

/-- C1: for every scored frame, the AUC of `calculate_auc` is computed
only over the rows whose gold value is 0 or 1: removing every other row
before the ROC AUC computation leaves the result unchanged.  (The frame
is assumed to have a `gold` column and rectangular rows, as every frame
produced by pandas does.) -/
theorem c1_calculate_auc_filters_gold (df : DataFrame)
    (hmem : "gold" ∈ df.cols)
    (hwf : ∀ r ∈ df.rows, r.length = df.cols.length) :
    calculate_auc df = calculate_auc (filterRows df (goldIn01 df.cols)) := by
  obtain ⟨i, hi⟩ := Option.isSome_iff_exists.mp (colIdx_isSome_iff.mpr hmem)
  have hcell : ∀ r ∈ df.rows, (getCell df.cols r "gold").isSome = true := by
    intro r hr
    exact getCell_isSome hi (by rw [hwf r hr]; exact colIdx_lt hi)
  obtain ⟨g1, hg1⟩ := Option.isSome_iff_exists.mp (mapO_isSome hcell)
  have hcell2 : ∀ r ∈ df.rows.filter (goldIn01 df.cols),
      (getCell df.cols r "gold").isSome = true :=
    fun r hr => hcell r (List.mem_filter.mp hr).1
  obtain ⟨g2, hg2⟩ := Option.isSome_iff_exists.mp (mapO_isSome hcell2)
  have hff : List.filter (goldIn01 df.cols)
      (List.filter (goldIn01 df.cols) df.rows)
      = List.filter (goldIn01 df.cols) df.rows := by
    generalize df.rows = l
    induction l with
    | nil => rfl
    | cons r rs ih =>
      by_cases hp : goldIn01 df.cols r = true
      · simp [List.filter_cons, hp, ih]
      · simp [List.filter_cons, hp, ih]
  simp only [calculate_auc, colCells, filterRows_cols, filterRows_rows, hff]
  rw [hg1, hg2, obind_some, obind_some]

/-- Witness for C1: the hypotheses hold and the theorem applies at the
concrete frame `dfMixed`, whose third row has gold value 3. -/
theorem c1_witness :
    ("gold" ∈ dfMixed.cols ∧
      ∀ r ∈ dfMixed.rows, r.length = dfMixed.cols.length) ∧
    calculate_auc dfMixed
      = calculate_auc (filterRows dfMixed (goldIn01 dfMixed.cols)) :=
  ⟨⟨by decide, by decide⟩,
    c1_calculate_auc_filters_gold dfMixed (by decide) (by decide)⟩

/-- C4: whenever `eval_gold` succeeds, the `avg_diff` entry of its
results dict is the mean, over every row of the frame it was given
(rows whose gold value is outside 0/1 included), of
`|row[row['label']] - row['gold']|`. -/
theorem c4_avg_diff_over_all_rows (df df2 : DataFrame)
    (results : List (String × ℚ))
    (hev : eval_gold df = some (df2, results)) :
    ∃ diffs, mapO (rowAbsDiff df.cols) df.rows = some diffs ∧
      dictGet results "avg_diff" = some (diffs.sum / ((diffs.length : ℕ) : ℚ)) :=
  eval_gold_avg_diff_lookup hev

/-- Witness for C4 at the concrete frame `dfMixed`, whose third row has
gold value 3: it is excluded from the AUCs but counted in `avg_diff`. -/
theorem c4_witness :
    eval_gold dfMixed = some (dfMixed_out, resultsMix) ∧
    ∃ diffs, mapO (rowAbsDiff dfMixed.cols) dfMixed.rows = some diffs ∧
      dictGet resultsMix "avg_diff"
        = some (diffs.sum / ((diffs.length : ℕ) : ℚ)) :=
  ⟨by decide,
    c4_avg_diff_over_all_rows dfMixed dfMixed_out resultsMix (by decide)⟩

/-- C10: the evaluation is deterministic.  The embedding is purely
functional, so this is extensionality: equal gold frames, equal label
lists and pointwise-equal `predict` functions give equal scored frames,
equal `eval_gold` outcomes and equal `main` outputs. -/
theorem c10_deterministic (g1 g2 : DataFrame) (m1 m2 : Model) (p1 p2 : String)
    (hg : g1 = g2) (hl : m1.labels = m2.labels)
    (hp : ∀ s, m1.predict s = m2.predict s) (hpth : p1 = p2) :
    score_gold g1 m1 = score_gold g2 m2 ∧
    (score_gold g1 m1).bind eval_gold = (score_gold g2 m2).bind eval_gold ∧
    main_fn g1 m1 p1 = main_fn g2 m2 p2 := by
  have hm : m1 = m2 := by
    cases m1 with | mk l1 f1 =>
    cases m2 with | mk l2 f2 =>
    have hl2 : l1 = l2 := hl
    have hf2 : f1 = f2 := funext hp
    rw [hl2, hf2]
  subst hg
  subst hm
  subst hpth
  exact ⟨rfl, rfl, rfl⟩

/-- Witness for C10 at the concrete gold frame `mGold` and model `mT`. -/
theorem c10_witness :
    score_gold mGold mT = score_gold mGold mT ∧
    (score_gold mGold mT).bind eval_gold = (score_gold mGold mT).bind eval_gold ∧
    main_fn mGold mT "gold.csv" = main_fn mGold mT "gold.csv" :=
  c10_deterministic mGold mGold mT mT "gold.csv" "gold.csv" rfl rfl
    (fun _ => rfl) rfl

/-! ### Lemmas: single-class gold makes the AUC undefined -/

theorem Value.numEq_one_asNum {v : Value} (h : v.numEq 1 = true) :
    v.asNum = some 1 := by
  cases v <;> simp_all [Value.numEq, Value.asNum]

theorem Value.numEq_zero_asNum {v : Value} (h : v.numEq 0 = true) :
    v.asNum = some 0 := by
  cases v <;> simp_all [Value.numEq, Value.asNum]

theorem goldIn01_cell {cols : List String} {r : List Value} {v : Value}
    (hg : goldIn01 cols r = true) (hc : getCell cols r "gold" = some v) :
    (v.numEq 0 || v.numEq 1) = true := by
  rw [goldIn01, hc] at hg
  exact hg

theorem calculate_auc_none_of_oneClass {df : DataFrame}
    (hone : oneClassAfterFilter df = true) : calculate_auc df = none := by
  simp only [calculate_auc]
  cases h0 : colCells df "gold" with
  | none => rfl
  | some gs =>
    rw [obind_some]
    cases hS : mapO (fun r => rowLabelCell df.cols r)
        (df.rows.filter (goldIn01 df.cols)) with
    | none => rfl
    | some ys =>
      rw [obind_some]
      cases hT : mapO (fun r => getCell df.cols r "gold")
          (df.rows.filter (goldIn01 df.cols)) with
      | none => rfl
      | some tcells =>
        rw [obind_some]
        cases hN : mapO Value.asNum tcells with
        | none => rfl
        | some trues =>
          rw [obind_some]
          cases hN2 : mapO Value.asNum ys with
          | none => rfl
          | some scores =>
            rw [obind_some]
            have htval : ∀ t ∈ trues, ∃ r ∈ df.rows.filter (goldIn01 df.cols),
                ∃ v, getCell df.cols r "gold" = some v ∧ v.asNum = some t := by
              intro t ht
              obtain ⟨cell, hcm, hca⟩ := mapO_mem_rev hN ht
              obtain ⟨r, hrm, hrg⟩ := mapO_mem_rev hT hcm
              exact ⟨r, hrm, cell, hrg, hca⟩
            rw [oneClassAfterFilter, Bool.or_eq_true, List.all_eq_true,
              List.all_eq_true] at hone
            rcases hone with hall1 | hall0
            · -- every remaining gold is the positive class 1: no negatives
              have hneg : (trues.zip scores).filter (fun p => p.1 != 1) = [] := by
                rw [List.filter_eq_nil_iff]
                intro p hp
                obtain ⟨r, hrm, v, hv, hvn⟩ :=
                  htval p.1 (List.of_mem_zip hp).1
                have h1 := hall1 r hrm
                rw [hv] at h1
                have := Value.numEq_one_asNum h1
                rw [this] at hvn
                have hp1 : p.1 = 1 := (Option.some_injective _ hvn).symm
                simp [hp1]
              simp [rocAuc, hneg]
            · -- every remaining gold is the class 0: no positives
              have hpos : (trues.zip scores).filter (fun p => p.1 == 1) = [] := by
                rw [List.filter_eq_nil_iff]
                intro p hp
                obtain ⟨r, hrm, v, hv, hvn⟩ :=
                  htval p.1 (List.of_mem_zip hp).1
                have h1 := hall0 r hrm
                rw [hv] at h1
                have h01 := goldIn01_cell (List.mem_filter.mp hrm).2 hv
                rw [Bool.not_eq_true'] at h1  
                rw [h1, Bool.or_false] at h01
                have := Value.numEq_zero_asNum h01
                rw [this] at hvn
                have hp1 : p.1 = 0 := (Option.some_injective _ hvn).symm
                simp [hp1]
              simp [rocAuc, hpos]

/-- C6: the `name` column is NOT optional in the code.  On the gold data
of the script's own header-comment example (columns
`comment_text,label,gold,_unit_id`, no `name`), `score_gold` succeeds
but `eval_gold` raises `KeyError` at `df_label['name']`, so the pipeline
produces no metrics. -/
theorem c6_name_column_required :
    "name" ∉ dfHeaderExample.cols ∧
    (score_gold dfHeaderExample mHeader).isSome = true ∧
    (score_gold dfHeaderExample mHeader).bind eval_gold = none := by
  exact ⟨by decide, by decide, by decide⟩

/-- C7: when the gold labels remaining after the `isin([0,1])` filter
are a single class (or none at all), the AUC is undefined:
`calculate_auc` raises, the exception propagates uncaught through
`eval_gold` and `main`, and no output is produced. -/
theorem c7_single_class_propagates (df df1 : DataFrame) (diffs : List ℚ)
    (h1 : astypeFloatCol df "gold" = some df1)
    (h2 : mapO (rowAbsDiff df1.cols) df1.rows = some diffs)
    (hone : oneClassAfterFilter
      (setColumn df1 "abs_gold_diff" (diffs.map Value.float)) = true) :
    calculate_auc (setColumn df1 "abs_gold_diff" (diffs.map Value.float))
      = none ∧
    eval_gold df = none ∧
    ∀ g m p, score_gold g m = some df → main_fn g m p = none := by
  have hauc := calculate_auc_none_of_oneClass hone
  have heval : eval_gold df = none := by
    simp only [eval_gold]
    rw [h1, obind_some, h2, obind_some, hauc]
    rfl
  refine ⟨hauc, heval, fun g m p hs => ?_⟩
  simp only [main_fn]
  rw [hs, obind_some, heval]
  rfl

/-- Witness for C7 at the one-row frame `dfOne`, whose single gold value
is 1 (a single class).  `dfOne` is the scored form of `dfOneGold` under
model `mT`. -/
theorem c7_witness :
    (astypeFloatCol dfOne "gold" = some dfOne1 ∧
     mapO (rowAbsDiff dfOne1.cols) dfOne1.rows = some [7/10] ∧
     oneClassAfterFilter
       (setColumn dfOne1 "abs_gold_diff" ([7/10].map Value.float)) = true ∧
     score_gold dfOneGold mT = some dfOne) ∧
    (calculate_auc (setColumn dfOne1 "abs_gold_diff" ([7/10].map Value.float))
       = none ∧
     eval_gold dfOne = none ∧
     ∀ g m p, score_gold g m = some dfOne → main_fn g m p = none) :=
  ⟨⟨by decide, by decide, by decide, by decide⟩,
    c7_single_class_propagates dfOne dfOne1 [7/10]
      (by decide) (by decide) (by decide)⟩

/-! ### Lemmas: cell/mask characterizations and `main` unfolding -/

theorem Value.asStr_eq_some {v : Value} {s : String} :
    v.asStr = some s ↔ v = Value.str s := by
  cases v <;> simp [Value.asStr]

theorem maskEq_str {cols : List String} {r : List Value} {c s : String} :
    maskEq cols c (Value.str s) r = true ↔
      getCell cols r c = some (Value.str s) := by
  rw [maskEq]
  cases h : getCell cols r c <;> simp [Value.eqv_str_iff]

theorem str_eqv_false_ne {a b : String}
    (h : (Value.str a).eqv (Value.str b) = false) : a ≠ b := by
  simpa [Value.eqv] using h

theorem main_fn_unfold {g : DataFrame} {m : Model} {p : String}
    {csv : DataFrame} {json : List (String × Value)}
    (h : main_fn g m p = some (csv, json)) :
    ∃ scored results, score_gold g m = some scored ∧
      eval_gold scored = some (csv, results) ∧
      json = dictInsert (results.map (fun e => (e.1, Value.float e.2)))
        "gold_path" (Value.str p) := by
  simp only [main_fn, obind_eq_some] at h
  obtain ⟨scored, h1, x, h2, hx⟩ := h
  obtain ⟨df2, results⟩ := x
  simp only [Option.pure_def, Option.some.injEq, Prod.mk.injEq] at hx
  obtain ⟨hcsv, hjson⟩ := hx
  subst hcsv
  exact ⟨scored, results, h1, h2, hjson.symm⟩

theorem keys_float_map {results : List (String × ℚ)} :
    (results.map (fun e => (e.1, Value.float e.2))).map Prod.fst
      = results.map Prod.fst := by
  rw [List.map_map]
  rfl

/-- C2 counterexample: on the scored frame `dfC` the two distinct
label/name combinations (`a`, `b_c`) and (`a_b`, `c`) build the same
dict key `auc_a_b_c`.  The later write wins: the dict maps the key to 0,
the AUC of the (`a_b`, `c`) slice, while the AUC over exactly the rows
with label `a` and name `b_c` is 1 — so the claim as stated fails. -/
theorem c2_counterexample :
    (eval_gold dfC).map Prod.fst = some dfC_out ∧
    (eval_gold dfC).map (fun p => dictGet p.2 "auc_a_b_c")
      = some (some 0) ∧
    calculate_auc (filterRows
        (filterRows dfC_out (maskEq dfC_out.cols "label" (Value.str "a")))
        (maskEq dfC_out.cols "name" (Value.str "b_c"))) = some 1 ∧
    (∃ r ∈ dfC_out.rows,
        getCell dfC_out.cols r "label" = some (Value.str "a") ∧
        getCell dfC_out.cols r "name" = some (Value.str "b_c")) ∧
    ("auc_" ++ "a" ++ "_" ++ "b_c" = "auc_a_b_c") ∧ "b_c" ≠ "a" := by
  exact ⟨by decide, by decide, by decide, by decide, by decide, by decide⟩

/-- C2 (amended): provided the metric keys produced by one run are
pairwise distinct, the results dict of `eval_gold` maps
`auc_<label>_<name>` — for every label value `L` and every name value
`N ≠ L` occurring on a row of `L` — to the AUC (gold restricted to 0/1
by `calculate_auc`) over exactly the rows with that label and that
name. -/
theorem c2_per_label_name_auc (df df2 : DataFrame)
    (results : List (String × ℚ)) (L N : String)
    (hev : eval_gold df = some (df2, results))
    (hnodup : nodupKeys ("avg_diff" :: "auc_all"
      :: ((aucEntries df2).getD []).map Prod.fst) = true)
    (hrow : ∃ r ∈ df2.rows,
        getCell df2.cols r "label" = some (Value.str L) ∧
        getCell df2.cols r "name" = some (Value.str N))
    (hNL : N ≠ L) :
    dictGet results ("auc_" ++ L ++ "_" ++ N)
      = calculate_auc (filterRows
          (filterRows df2 (maskEq df2.cols "label" (Value.str L)))
          (maskEq df2.cols "name" (Value.str N))) := by
  obtain ⟨df1, diffs, aucAll, entries, h1, h2, hdf2, h3, h4, hres⟩ :=
    eval_gold_unfold hev
  obtain ⟨r, hr, hlab, hname⟩ := hrow
  obtain ⟨es, hles, hsub⟩ := aucEntries_mem_fwd h4 ⟨r, hr, hlab⟩
  have hrs : r ∈ (filterRows df2 (maskEq df2.cols "label" (Value.str L))).rows := by
    simp only [filterRows_rows, List.mem_filter]
    exact ⟨hr, maskEq_str.mpr hlab⟩
  obtain ⟨e, hef, hees⟩ := labelEntries_mem_fwd hles ⟨r, hrs, hname⟩
  have hne : (Value.str N).eqv (Value.str L) = false := by
    simp [Value.eqv, hNL]
  rw [entryFor, if_neg (by rw [hne]; exact Bool.false_ne_true)] at hef
  simp only [filterRows_cols, Value.asStr, obind_some, obind_eq_some,
    Option.pure_def, Option.some.injEq] at hef
  obtain ⟨a, ha, hea⟩ := hef
  rw [hres]
  have hkey : ("auc_" ++ L ++ "_" ++ N, a) ∈ es := by
    rw [hea]
    exact hees
  have hmem : ("auc_" ++ L ++ "_" ++ N, a) ∈
      (("avg_diff", listMean diffs) :: ("auc_all", aucAll) :: entries) :=
    List.mem_cons_of_mem _ (List.mem_cons_of_mem _ (hsub _ hkey))
  have hnodup2 : nodupKeys ((("avg_diff", listMean diffs)
      :: ("auc_all", aucAll) :: entries).map Prod.fst) = true := by
    simpa [h4] using hnodup
  rw [dictGet_dictOfEntries_nodup hnodup2 hmem]
  exact ha.symm

/-- Witness for C2 (amended) at the scored frame `dfB2` (one label `t`,
one distinct subcategory `b`). -/
theorem c2_witness :
    (eval_gold dfB2 = some (dfB2_out, resultsB) ∧
     nodupKeys ("avg_diff" :: "auc_all"
       :: ((aucEntries dfB2_out).getD []).map Prod.fst) = true ∧
     (∃ r ∈ dfB2_out.rows,
         getCell dfB2_out.cols r "label" = some (Value.str "t") ∧
         getCell dfB2_out.cols r "name" = some (Value.str "b")) ∧
     "b" ≠ "t") ∧
    dictGet resultsB ("auc_" ++ "t" ++ "_" ++ "b")
      = calculate_auc (filterRows
          (filterRows dfB2_out (maskEq dfB2_out.cols "label" (Value.str "t")))
          (maskEq dfB2_out.cols "name" (Value.str "b"))) :=
  ⟨⟨by decide, by decide, by decide, by decide⟩,
    c2_per_label_name_auc dfB2 dfB2_out resultsB "t" "b"
      (by decide) (by decide) (by decide) (by decide)⟩

/-- C3 counterexample: in `mGold` the label `t` occurs (only with
subcategory `b` ≠ `t`), yet the metrics JSON of `main` has no key
`auc_t` — `results['auc_'+label]` is only written when some row has
`name == label`. -/
theorem c3_counterexample :
    (∃ r ∈ mGold.rows, getCell mGold.cols r "label" = some (Value.str "t")) ∧
    (main_fn mGold mT "gold.csv").isSome = true ∧
    (main_fn mGold mT "gold.csv").map (fun p => dictGet p.2 "auc_t")
      = some none := by
  exact ⟨by decide, by decide, by decide⟩

/-- C3 (amended): the metrics JSON of `main` always has the keys
`avg_diff`, `auc_all` and `gold_path`; it has `auc_<label>` exactly when
some row of the scored frame has `name` equal to its label value (NOT
for every label that appears); and every key is of one of the five
forms `avg_diff`, `auc_all`, `gold_path`, `auc_<label>` (self-named
occurrence), `auc_<label>_<name>` (name ≠ label occurrence). -/
theorem c3_json_keys (g : DataFrame) (m : Model) (p : String)
    (csv : DataFrame) (json : List (String × Value))
    (hmain : main_fn g m p = some (csv, json)) :
    ("avg_diff" ∈ json.map Prod.fst ∧ "auc_all" ∈ json.map Prod.fst ∧
      "gold_path" ∈ json.map Prod.fst) ∧
    (∀ L : String,
      (∃ r ∈ csv.rows, getCell csv.cols r "label" = some (Value.str L) ∧
          getCell csv.cols r "name" = some (Value.str L)) →
      ("auc_" ++ L) ∈ json.map Prod.fst) ∧
    (∀ k ∈ json.map Prod.fst,
      k = "avg_diff" ∨ k = "auc_all" ∨ k = "gold_path" ∨
      (∃ L, k = "auc_" ++ L ∧
        ∃ r ∈ csv.rows, getCell csv.cols r "label" = some (Value.str L) ∧
          getCell csv.cols r "name" = some (Value.str L)) ∨
      (∃ L N, N ≠ L ∧ k = "auc_" ++ L ++ "_" ++ N ∧
        ∃ r ∈ csv.rows, getCell csv.cols r "label" = some (Value.str L) ∧
          getCell csv.cols r "name" = some (Value.str N))) := by
  obtain ⟨scored, results, hs, hev, hjson⟩ := main_fn_unfold hmain
  obtain ⟨df1, diffs, aucAll, entries, h1, h2, hdf2, h3, h4, hres⟩ :=
    eval_gold_unfold hev
  have hkeys : ∀ k : String, k ∈ json.map Prod.fst ↔
      (k ∈ ("avg_diff" :: "auc_all" :: entries.map Prod.fst)
        ∨ k = "gold_path") := by
    intro k
    rw [hjson, mem_keys_dictInsert, keys_float_map, hres,
      mem_keys_dictOfEntries]
    simp only [List.map_nil, List.not_mem_nil, false_or, List.map_cons,
      List.mem_cons]
  refine ⟨⟨?_, ?_, ?_⟩, ?_, ?_⟩
  · exact (hkeys _).mpr (Or.inl (List.mem_cons_self _ _))
  · exact (hkeys _).mpr (Or.inl
      (List.mem_cons_of_mem _ (List.mem_cons_self _ _)))
  · exact (hkeys _).mpr (Or.inr rfl)
  · -- `auc_<label>` is present for every self-named occurrence
    rintro L ⟨r, hr, hlab, hname⟩
    obtain ⟨es, hles, hsub⟩ := aucEntries_mem_fwd h4 ⟨r, hr, hlab⟩
    have hrs : r ∈ (filterRows csv
        (maskEq csv.cols "label" (Value.str L))).rows := by
      simp only [filterRows_rows, List.mem_filter]
      exact ⟨hr, maskEq_str.mpr hlab⟩
    obtain ⟨e, hef, hees⟩ := labelEntries_mem_fwd hles ⟨r, hrs, hname⟩
    rw [entryFor, if_pos (Value.eqv_refl (Value.str L))] at hef
    simp only [Value.asStr, obind_some, obind_eq_some, Option.pure_def,
      Option.some.injEq] at hef
    obtain ⟨a, _, hea⟩ := hef
    refine (hkeys _).mpr (Or.inl (List.mem_cons_of_mem _
      (List.mem_cons_of_mem _ (List.mem_map.mpr ⟨e, hsub e hees, ?_⟩))))
    rw [← hea]
  · -- every key has one of the five shapes
    intro k hk
    rcases (hkeys k).mp hk with hfull | hgp
    · rcases List.mem_cons.mp hfull with h5 | h6
      · exact Or.inl h5
      rcases List.mem_cons.mp h6 with h7 | h8
      · exact Or.inr (Or.inl h7)
      obtain ⟨e, hee, hk1⟩ := List.mem_map.mp h8
      obtain ⟨lv, es, _, hles, hees⟩ := aucEntries_mem_rev h4 hee
      obtain ⟨nv, ⟨r, hrm, hnm⟩, hef⟩ := labelEntries_mem_rev hles hees
      simp only [filterRows_rows, List.mem_filter] at hrm
      obtain ⟨hrcsv, hmask⟩ := hrm
      rcases entryFor_some hef with
        ⟨ls, a, hlsv, heqv, _, hea⟩ | ⟨ls, ns, a, hlsv, hnsv, heqv, _, hea⟩
      · -- name == label: the `auc_<label>` entry
        obtain rfl := Value.asStr_eq_some.mp hlsv
        obtain rfl := Value.eqv_str_iff.mp heqv
        refine Or.inr (Or.inr (Or.inr (Or.inl ⟨ls, ?_, r, hrcsv,
          maskEq_str.mp hmask, hnm⟩)))
        rw [← hk1, hea]
      · -- name ≠ label: the `auc_<label>_<name>` entry
        obtain rfl := Value.asStr_eq_some.mp hlsv
        obtain rfl := Value.asStr_eq_some.mp hnsv
        refine Or.inr (Or.inr (Or.inr (Or.inr ⟨ls, ns,
          str_eqv_false_ne heqv, ?_, r, hrcsv,
          maskEq_str.mp hmask, hnm⟩)))
        rw [← hk1, hea]
    · exact Or.inr (Or.inr (Or.inl hgp))

/-- Witness for C3 (amended) at the concrete run of `main` on `mGold`
with model `mT`. -/
theorem c3_witness :
    main_fn mGold mT "gold.csv" = some (dfB2_out, jsonM) ∧
    (("avg_diff" ∈ jsonM.map Prod.fst ∧ "auc_all" ∈ jsonM.map Prod.fst ∧
       "gold_path" ∈ jsonM.map Prod.fst) ∧
     (∀ L : String,
       (∃ r ∈ dfB2_out.rows,
           getCell dfB2_out.cols r "label" = some (Value.str L) ∧
           getCell dfB2_out.cols r "name" = some (Value.str L)) →
       ("auc_" ++ L) ∈ jsonM.map Prod.fst) ∧
     (∀ k ∈ jsonM.map Prod.fst,
       k = "avg_diff" ∨ k = "auc_all" ∨ k = "gold_path" ∨
       (∃ L, k = "auc_" ++ L ∧
         ∃ r ∈ dfB2_out.rows,
           getCell dfB2_out.cols r "label" = some (Value.str L) ∧
           getCell dfB2_out.cols r "name" = some (Value.str L)) ∨
       (∃ L N, N ≠ L ∧ k = "auc_" ++ L ++ "_" ++ N ∧
         ∃ r ∈ dfB2_out.rows,
           getCell dfB2_out.cols r "label" = some (Value.str L) ∧
           getCell dfB2_out.cols r "name" = some (Value.str N)))) :=
  ⟨by decide, c3_json_keys mGold mT "gold.csv" dfB2_out jsonM (by decide)⟩

/-! ### Lemmas: `mapO` over zipped and mapped lists -/

theorem mapO_map {α β γ : Type} {g : α → β} {f : β → Option γ} {l : List α} :
    mapO f (l.map g) = mapO (fun a => f (g a)) l := by
  induction l with
  | nil => rfl
  | cons a l ih => simp only [List.map_cons, mapO, ih]

theorem mapO_zip_fst {α β γ : Type} {l : List α} {vs : List β}
    {h : α × β → Option γ} {h2 : α → Option γ}
    (hlen : vs.length = l.length)
    (hagree : ∀ p ∈ l.zip vs, h p = h2 p.1) :
    mapO h (l.zip vs) = mapO h2 l := by
  induction l generalizing vs with
  | nil => cases vs <;> rfl
  | cons a l ih =>
    cases vs with
    | nil => simp at hlen
    | cons v vs2 =>
      rw [List.zip_cons_cons]
      simp only [mapO]
      rw [hagree (a, v) (by rw [List.zip_cons_cons]; exact List.mem_cons_self _ _)]
      rw [ih (by simpa using hlen)
        (fun p hp => hagree p (by rw [List.zip_cons_cons]; exact List.mem_cons_of_mem _ hp))]

theorem mapO_comp_eq2 {α β : Type} {g : α → Option α} {k1 k2 : α → Option β}
    {l l2 : List α} (hl : mapO g l = some l2)
    (hk : ∀ a ∈ l, ∀ b, g a = some b → k1 b = k2 a) :
    mapO k1 l2 = mapO k2 l := by
  induction l generalizing l2 with
  | nil =>
    simp only [mapO, Option.some.injEq] at hl
    subst hl
    rfl
  | cons a l ih =>
    obtain ⟨b, bs, hb, hbs, rfl⟩ := mapO_cons_some.mp hl
    have h1 : k1 b = k2 a := hk a (List.mem_cons_self _ _) b hb
    have h2 := ih hbs (fun x hx => hk x (List.mem_cons_of_mem _ hx))
    simp only [mapO, h1, h2]

theorem mapO_mapO {α β γ : Type} {f : α → Option β} {k : β → Option γ}
    {l : List α} {bs : List β} (h : mapO f l = some bs) :
    mapO k bs = mapO (fun a => (f a).bind k) l := by
  induction l generalizing bs with
  | nil =>
    simp only [mapO, Option.some.injEq] at h
    subst h
    rfl
  | cons a l ih =>
    obtain ⟨b, bs2, hb, hbs, rfl⟩ := mapO_cons_some.mp h
    simp only [mapO, hb, Option.some_bind, ih hbs]

theorem getCell_append {cols ds : List String} {row ext : List Value}
    {c : String} {j : Nat} (hc : colIdx cols c = some j)
    (hj : j < row.length) :
    getCell (cols ++ ds) (row ++ ext) c = getCell cols row c := by
  simp [getCell, hc, colIdx_append_left hc, List.getElem?_append_left hj]

theorem getCell_append_right {cols ds : List String} {row ext : List Value}
    {c : String} (hc : colIdx cols c = none) (hlen : row.length = cols.length) :
    getCell (cols ++ ds) (row ++ ext) c = getCell ds ext c := by
  rw [getCell, getCell, colIdx_append_none hc]
  cases hd : colIdx ds c with
  | none => rfl
  | some j =>
    simp only [Option.map_some', obind_some]
    rw [List.getElem?_append_right (by omega)]
    congr 1
    omega

/-! ### Lemmas: how `eval_gold` mutates its frame -/

theorem eval_gold_mutation {df df2 : DataFrame} {results : List (String × ℚ)}
    (hev : eval_gold df = some (df2, results))
    (habs : "abs_gold_diff" ∉ df.cols)
    (hwf : ∀ r ∈ df.rows, r.length = df.cols.length) :
    df2.cols = df.cols ++ ["abs_gold_diff"] ∧
    (∀ c ∈ df.cols, c ≠ "gold" → colCells df2 c = colCells df c) ∧
    (∃ golds golds2, colCells df "gold" = some golds ∧
      colCells df2 "gold" = some golds2 ∧
      mapO Value.toFloat golds = some golds2) := by
  obtain ⟨df1, diffs, aucAll, entries, h1, h2, hdf2, h3, h4, hres⟩ :=
    eval_gold_unfold hev
  obtain ⟨i, rows1, hgi, hrows1, hdf1⟩ := astypeFloatCol_unfold h1
  subst hdf1
  subst hdf2
  have habsIdx : colIdx df.cols "abs_gold_diff" = none := by
    cases h : colIdx df.cols "abs_gold_diff" with
    | none => rfl
    | some j => exact absurd (colIdx_isSome_iff.mp (by simp [h])) habs
  have hset : setColumn ⟨df.cols, rows1⟩ "abs_gold_diff" (diffs.map Value.float)
      = ⟨df.cols ++ ["abs_gold_diff"],
         ((rows1.zip (diffs.map Value.float)).map (fun p => p.1 ++ [p.2]))⟩ := by
    simp only [setColumn, habsIdx]
  have hlen1 : ∀ r1 ∈ rows1, r1.length = df.cols.length := by
    intro r1 hr1
    obtain ⟨r, hr, hg⟩ := mapO_mem_rev hrows1 hr1
    simp only [obind_eq_some, Option.pure_def, Option.some.injEq] at hg
    obtain ⟨cell, hcell, f, hf, rfl⟩ := hg
    rw [List.length_set]
    exact hwf r hr
  have hdiffslen : diffs.length = rows1.length := mapO_some_length h2
  have hvlen : (diffs.map Value.float).length = rows1.length := by
    simp [hdiffslen]
  refine ⟨by rw [hset], ?_, ?_⟩
  · intro c hc hcg
    obtain ⟨j, hj⟩ :=
      Option.isSome_iff_exists.mp (colIdx_isSome_iff.mpr hc)
    rw [hset]
    show mapO (fun r => getCell (df.cols ++ ["abs_gold_diff"]) r c)
        ((rows1.zip (diffs.map Value.float)).map (fun p => p.1 ++ [p.2]))
      = colCells df c
    rw [mapO_map]
    have step1 : mapO (fun p : List Value × Value =>
          getCell (df.cols ++ ["abs_gold_diff"]) (p.1 ++ [p.2]) c)
          (rows1.zip (diffs.map Value.float))
        = mapO (fun r1 => getCell df.cols r1 c) rows1 :=
      mapO_zip_fst hvlen (fun p hp =>
        getCell_append hj (by
          rw [hlen1 p.1 (List.of_mem_zip hp).1]
          exact colIdx_lt hj))
    rw [step1]
    exact mapO_comp_eq2 hrows1 (fun r hr b hb => by
      simp only [obind_eq_some, Option.pure_def, Option.some.injEq] at hb
      obtain ⟨cell, hcell, f, hf, rfl⟩ := hb
      exact getCell_set_other hgi hcg)
  · have hcellsome : ∀ r ∈ df.rows,
        (getCell df.cols r "gold").isSome = true := by
      intro r hr
      obtain ⟨r1, hg, _⟩ := mapO_mem_fwd hrows1 hr
      simp only [obind_eq_some, Option.pure_def, Option.some.injEq] at hg
      obtain ⟨cell, hcell, f, hf, rfl⟩ := hg
      simp [getCell, hgi, hcell]
    obtain ⟨golds, hgolds⟩ :=
      Option.isSome_iff_exists.mp (mapO_isSome hcellsome)
    have hbindsome : ∀ r ∈ df.rows,
        ((getCell df.cols r "gold").bind Value.toFloat).isSome = true := by
      intro r hr
      obtain ⟨r1, hg, _⟩ := mapO_mem_fwd hrows1 hr
      simp only [obind_eq_some, Option.pure_def, Option.some.injEq] at hg
      obtain ⟨cell, hcell, f, hf, rfl⟩ := hg
      simp [getCell, hgi, hcell, hf]
    obtain ⟨golds2, hg2⟩ :=
      Option.isSome_iff_exists.mp (mapO_isSome hbindsome)
    have hstep1 : colCells (setColumn ⟨df.cols, rows1⟩ "abs_gold_diff"
          (diffs.map Value.float)) "gold"
        = mapO (fun r1 => getCell df.cols r1 "gold") rows1 := by
      rw [hset]
      show mapO (fun r => getCell (df.cols ++ ["abs_gold_diff"]) r "gold")
          ((rows1.zip (diffs.map Value.float)).map (fun p => p.1 ++ [p.2]))
        = _
      rw [mapO_map]
      exact mapO_zip_fst hvlen (fun p hp =>
        getCell_append hgi (by
          rw [hlen1 p.1 (List.of_mem_zip hp).1]
          exact colIdx_lt hgi))
    have hstep2 : mapO (fun r1 => getCell df.cols r1 "gold") rows1
        = mapO (fun r => (getCell df.cols r "gold").bind Value.toFloat)
            df.rows :=
      mapO_comp_eq2 hrows1 (fun r hr b hb => by
        simp only [obind_eq_some, Option.pure_def, Option.some.injEq] at hb
        obtain ⟨cell, hcell, f, hf, rfl⟩ := hb
        have hidx : i < r.length := by
          by_contra hge
          rw [List.getElem?_eq_none (by omega)] at hcell
          exact Option.noConfusion hcell
        simp [getCell, hgi, List.getElem?_set, hidx, hcell, hf])
    refine ⟨golds, golds2, hgolds, ?_, ?_⟩
    · rw [hstep1, hstep2]
      exact hg2
    · rw [mapO_mapO hgolds, hg2]

theorem mapO_zip_snd {α β γ : Type} {l : List α} {vs : List β}
    {h : α × β → Option γ} {h2 : β → Option γ}
    (hlen : l.length = vs.length)
    (hagree : ∀ p ∈ l.zip vs, h p = h2 p.2) :
    mapO h (l.zip vs) = mapO h2 vs := by
  induction l generalizing vs with
  | nil =>
    cases vs with
    | nil => rfl
    | cons v vs2 => simp at hlen
  | cons a l ih =>
    cases vs with
    | nil => simp at hlen
    | cons v vs2 =>
      rw [List.zip_cons_cons]
      simp only [mapO]
      rw [hagree (a, v) (by
        rw [List.zip_cons_cons]
        exact List.mem_cons_self _ _)]
      rw [ih (by simpa using hlen) (fun p hp => hagree p (by
        rw [List.zip_cons_cons]
        exact List.mem_cons_of_mem _ hp))]

theorem colIdx_none_of_not_mem {cols : List String} {c : String}
    (h : c ∉ cols) : colIdx cols c = none := by
  cases hc : colIdx cols c with
  | none => rfl
  | some j => exact absurd (colIdx_isSome_iff.mp (by simp [hc])) h

/-- C9: `eval_gold` mutates the frame it receives — afterwards it has a
new `abs_gold_diff` column appended and its `gold` column is converted
to float64 (values preserved), every other column unchanged — and
`main` writes the scored CSV only after `eval_gold`, so the CSV it
writes is exactly that mutated frame. -/
theorem c9_eval_gold_mutates (df df2 : DataFrame)
    (results : List (String × ℚ))
    (hev : eval_gold df = some (df2, results))
    (habs : "abs_gold_diff" ∉ df.cols)
    (hwf : ∀ r ∈ df.rows, r.length = df.cols.length) :
    (df2.cols = df.cols ++ ["abs_gold_diff"] ∧
     (∀ c ∈ df.cols, c ≠ "gold" → colCells df2 c = colCells df c) ∧
     (∃ golds golds2, colCells df "gold" = some golds ∧
       colCells df2 "gold" = some golds2 ∧
       mapO Value.toFloat golds = some golds2)) ∧
    (∀ g m p csv json, main_fn g m p = some (csv, json) →
      ∃ scored res, score_gold g m = some scored ∧
        eval_gold scored = some (csv, res)) := by
  refine ⟨eval_gold_mutation hev habs hwf, fun g m p csv json hm => ?_⟩
  obtain ⟨scored, res, hs, hev2, _⟩ := main_fn_unfold hm
  exact ⟨scored, res, hs, hev2⟩

/-- Witness for C9 at the concrete frame `dfA`. -/
theorem c9_witness :
    (eval_gold dfA = some (dfA_out, resultsA) ∧
     "abs_gold_diff" ∉ dfA.cols ∧
     ∀ r ∈ dfA.rows, r.length = dfA.cols.length) ∧
    ((dfA_out.cols = dfA.cols ++ ["abs_gold_diff"] ∧
      (∀ c ∈ dfA.cols, c ≠ "gold" → colCells dfA_out c = colCells dfA c) ∧
      (∃ golds golds2, colCells dfA "gold" = some golds ∧
        colCells dfA_out "gold" = some golds2 ∧
        mapO Value.toFloat golds = some golds2)) ∧
     (∀ g m p csv json, main_fn g m p = some (csv, json) →
       ∃ scored res, score_gold g m = some scored ∧
         eval_gold scored = some (csv, res))) :=
  ⟨⟨by decide, by decide, by decide⟩,
    c9_eval_gold_mutates dfA dfA_out resultsA
      (by decide) (by decide) (by decide)⟩

/-- C5 counterexample: the CSV written by `main` is NOT just the
original columns plus one score column per label, and the original
values are not all unchanged: on `mGold` the written frame has an extra
`abs_gold_diff` column (named neither in the input nor among the model
labels), and the `gold` column's int values 1, 0 have become floats. -/
theorem c5_counterexample :
    (main_fn mGold mT "gold.csv").map (fun q => q.1.cols)
      = some ["t", "comment_text", "label", "gold", "name", "abs_gold_diff"] ∧
    "abs_gold_diff" ∉ mGold.cols ∧
    "abs_gold_diff" ∉ mT.labels ∧
    (main_fn mGold mT "gold.csv").map (fun q => colCells q.1 "gold")
      = some (some [Value.float 1, Value.float 0]) ∧
    colCells mGold "gold" = some [Value.int 1, Value.int 0] := by
  exact ⟨by decide, by decide, by decide, by decide, by decide⟩

/-- C5 (amended): the scored CSV written by `main` contains the model's
score columns (numeric), then the original gold columns, then an extra
`abs_gold_diff` column; the original columns' values are unchanged
except `gold`, which is converted to float64 with its numeric values
preserved. -/
theorem c5_scored_csv_columns (g : DataFrame) (m : Model) (p : String)
    (csv : DataFrame) (json : List (String × Value))
    (hmain : main_fn g m p = some (csv, json))
    (hlen : ∀ t, (m.predict t).length = m.labels.length)
    (habs1 : "abs_gold_diff" ∉ m.labels)
    (habs2 : "abs_gold_diff" ∉ g.cols)
    (hgl : "gold" ∉ m.labels)
    (hwf : ∀ r ∈ g.rows, r.length = g.cols.length) :
    csv.cols = (m.labels ++ g.cols) ++ ["abs_gold_diff"] ∧
    (∀ c ∈ g.cols, c ∉ m.labels → c ≠ "gold" →
      colCells csv c = colCells g c) ∧
    (∃ golds golds2, colCells g "gold" = some golds ∧
      colCells csv "gold" = some golds2 ∧
      mapO Value.toFloat golds = some golds2) ∧
    (∀ row ∈ csv.rows, ∀ j < m.labels.length,
      ∃ q, row[j]? = some (Value.float q)) := by
  obtain ⟨scored, results, hs, hev, hjson⟩ := main_fn_unfold hmain
  obtain ⟨texts, strs, htexts, hstrs, hscored⟩ := score_gold_unfold hs
  have htlen : texts.length = g.rows.length := mapO_some_length htexts
  have hslen : strs.length = texts.length := mapO_some_length hstrs
  have hzlen : (strs.map m.predict).length = g.rows.length := by
    simp [hslen, htlen]
  -- every scored row is scores ++ original row
  have hscols : scored.cols = m.labels ++ g.cols := by rw [hscored]
  have hsrows : scored.rows = ((strs.map m.predict).zip g.rows).map
      (fun q => (q.1.map Value.float) ++ q.2) := by rw [hscored]
  have hprelen : ∀ s ∈ strs.map m.predict, s.length = m.labels.length := by
    intro s hsm
    obtain ⟨t, _, rfl⟩ := List.mem_map.mp hsm
    exact hlen t
  have hswf : ∀ r ∈ scored.rows, r.length = scored.cols.length := by
    intro r hr
    rw [hsrows] at hr
    obtain ⟨q, hq, rfl⟩ := List.mem_map.mp hr
    have h1 := hprelen q.1 (List.of_mem_zip hq).1
    have h2 := hwf q.2 (List.of_mem_zip hq).2
    simp [hscols, h1, h2]
  have hsabs : "abs_gold_diff" ∉ scored.cols := by
    rw [hscols]
    simp [habs1, habs2]
  obtain ⟨hcols2, hpres, hgold⟩ := eval_gold_mutation hev hsabs hswf
  -- transfer a column of `scored` back to `g` when it is not a score column
  have htrans : ∀ c : String, c ∉ m.labels →
      colCells scored c = colCells g c := by
    intro c hc
    have hcnone : colIdx m.labels c = none := colIdx_none_of_not_mem hc
    show mapO (fun r => getCell scored.cols r c) scored.rows = _
    rw [hsrows, hscols, mapO_map]
    exact mapO_zip_snd hzlen (fun q hq =>
      getCell_append_right hcnone (by
        rw [List.length_map]
        exact hprelen q.1 (List.of_mem_zip hq).1))
  refine ⟨by rw [hcols2, hscols], ?_, ?_, ?_⟩
  · intro c hc hcm hcg
    rw [hpres c (by rw [hscols]; exact List.mem_append_right _ hc) hcg]
    exact htrans c hcm
  · obtain ⟨golds, golds2, hg1, hg2, hg3⟩ := hgold
    rw [htrans "gold" hgl] at hg1
    exact ⟨golds, golds2, hg1, hg2, hg3⟩
  · -- the score columns of the written CSV hold floats
    intro row hrow j hjlt
    obtain ⟨df1, diffs, aucAll, entries, h1, h2, hdf2, h3, h4, hres⟩ :=
      eval_gold_unfold hev
    obtain ⟨i, rows1, hgi, hrows1, hdf1⟩ := astypeFloatCol_unfold h1
    subst hdf1
    subst hdf2
    have habsIdx : colIdx scored.cols "abs_gold_diff" = none :=
      colIdx_none_of_not_mem hsabs
    have hset : setColumn ⟨scored.cols, rows1⟩ "abs_gold_diff"
          (diffs.map Value.float)
        = ⟨scored.cols ++ ["abs_gold_diff"],
           ((rows1.zip (diffs.map Value.float)).map
             (fun q => q.1 ++ [q.2]))⟩ := by
      simp only [setColumn, habsIdx]
    rw [hset] at hrow
    simp only [List.mem_map] at hrow
    obtain ⟨q, hq, rfl⟩ := hrow
    obtain ⟨rs, hrs, hgq⟩ := mapO_mem_rev hrows1 (List.of_mem_zip hq).1
    simp only [obind_eq_some, Option.pure_def, Option.some.injEq] at hgq
    obtain ⟨cell, hcell, f, hf, hqset⟩ := hgq
    -- the gold position is beyond the score prefix
    have higeq : ∃ i2, colIdx g.cols "gold" = some i2 ∧
        i = m.labels.length + i2 := by
      have := hgi
      rw [hscols, colIdx_append_none (colIdx_none_of_not_mem hgl)] at this
      cases hg0 : colIdx g.cols "gold" with
      | none => rw [hg0] at this; exact Option.noConfusion this
      | some i2 =>
        rw [hg0] at this
        simp only [Option.map_some', Option.some.injEq] at this
        exact ⟨i2, rfl, this.symm⟩
    obtain ⟨i2, _, hisum⟩ := higeq
    -- the scored row under this one
    rw [hsrows] at hrs
    obtain ⟨w, hw, rfl⟩ := List.mem_map.mp hrs
    have hw1len : (w.1.map Value.float).length = m.labels.length := by
      rw [List.length_map]
      exact hprelen w.1 (List.of_mem_zip hw).1
    have hjw : j < (w.1.map Value.float).length := by omega
    have hij : i ≠ j := by omega
    have hq1len : q.1.length = (List.map Value.float w.1 ++ w.2).length := by
      rw [← hqset, List.length_set]
    have hrslen : (List.map Value.float w.1 ++ w.2).length
        = (List.map Value.float w.1).length + w.2.length :=
      List.length_append _ _
    have hjq : j < q.1.length := by omega
    have e1 : (q.1 ++ [q.2])[j]? = q.1[j]? := List.getElem?_append_left hjq
    have e2 : q.1[j]? = (List.map Value.float w.1 ++ w.2)[j]? := by
      rw [← hqset]
      exact List.getElem?_set_ne hij
    have e3 : (List.map Value.float w.1 ++ w.2)[j]?
        = (List.map Value.float w.1)[j]? :=
      List.getElem?_append_left hjw
    have hjw1 : j < w.1.length := by
      rw [List.length_map] at hjw
      exact hjw
    refine ⟨w.1.get ⟨j, hjw1⟩, ?_⟩
    rw [e1, e2, e3, List.getElem?_map, List.getElem?_eq_getElem hjw1]
    rfl

/-- Witness for C5 (amended) at the concrete run of `main` on `mGold`
with model `mT`. -/
theorem c5_witness :
    main_fn mGold mT "gold.csv" = some (dfB2_out, jsonM) ∧
    (dfB2_out.cols = (mT.labels ++ mGold.cols) ++ ["abs_gold_diff"] ∧
     (∀ c ∈ mGold.cols, c ∉ mT.labels → c ≠ "gold" →
       colCells dfB2_out c = colCells mGold c) ∧
     (∃ golds golds2, colCells mGold "gold" = some golds ∧
       colCells dfB2_out "gold" = some golds2 ∧
       mapO Value.toFloat golds = some golds2) ∧
     (∀ row ∈ dfB2_out.rows, ∀ j < mT.labels.length,
       ∃ q, row[j]? = some (Value.float q))) :=
  ⟨by decide,
    c5_scored_csv_columns mGold mT "gold.csv" dfB2_out jsonM
      (by decide) (fun t => rfl) (by decide) (by decide) (by decide)
      (by decide)⟩

/-! ### Lemmas: lookup safety (C8) -/

theorem getCell_set_diff {cols : List String} {row : List Value} {i : Nat}
    {f : Value} {c d : String} (hd : colIdx cols d = some i) (hc : c ≠ d) :
    getCell cols (row.set i f) c = getCell cols row c := by
  cases hcc : colIdx cols c with
  | none => simp [getCell, hcc]
  | some j =>
    have hij : i ≠ j := colIdx_ne_of_ne hd hcc (Ne.symm hc)
    simp [getCell, hcc, List.getElem?_set_ne hij]

theorem getCell_set_isSome {cols : List String} {row : List Value} {i : Nat}
    {f : Value} {c : String} :
    (getCell cols (row.set i f) c).isSome = (getCell cols row c).isSome := by
  cases hcc : colIdx cols c with
  | none => simp [getCell, hcc]
  | some j =>
    by_cases hij : i = j
    · subst hij
      by_cases hl : i < row.length
      · simp [getCell, hcc, List.getElem?_set, hl,
          List.getElem?_eq_getElem hl]
      · simp [getCell, hcc, List.getElem?_set, hl,
          List.getElem?_eq_none (by omega : row.length ≤ i)]
    · simp [getCell, hcc, List.getElem?_set_ne hij]

theorem getCell_append_of_isSome {cols ds : List String}
    {row ext : List Value} {c : String}
    (h : (getCell cols row c).isSome = true) :
    getCell (cols ++ ds) (row ++ ext) c = getCell cols row c := by
  cases hcc : colIdx cols c with
  | none => simp [getCell, hcc] at h
  | some j =>
    have hj : j < row.length := by
      by_contra hge
      simp [getCell, hcc, List.getElem?_eq_none (by omega : row.length ≤ j)]
        at h
    exact getCell_append hcc hj

theorem rowLabelCell_isSome_transfer {cols cols2 : List String}
    {row row2 : List Value}
    (hsome : ∀ c, (getCell cols row c).isSome = true →
      (getCell cols2 row2 c).isSome = true)
    (hlabval : (getCell cols row "label").isSome = true →
      getCell cols2 row2 "label" = getCell cols row "label")
    (h : (rowLabelCell cols row).isSome = true) :
    (rowLabelCell cols2 row2).isSome = true := by
  rw [rowLabelCell] at h ⊢
  cases hA : getCell cols row "label" with
  | none => rw [hA] at h; simp at h
  | some lv =>
    rw [hA, obind_some] at h
    rw [hlabval (by simp [hA]), hA, obind_some]
    cases hS : lv.asStr with
    | none => rw [hS] at h; simp at h
    | some ls =>
      rw [hS, obind_some] at h
      rw [obind_some]
      exact hsome ls h

theorem mem_of_contains {l : List String} {s : String}
    (h : l.contains s = true) : s ∈ l := by
  obtain ⟨a, ha, hba⟩ := List.contains_iff_exists_mem_beq.mp h
  obtain rfl : s = a := by simpa using hba
  exact ha

theorem score_gold_lookups {g : DataFrame} {m : Model} {scored : DataFrame}
    (hs : score_gold g m = some scored)
    (hlen : ∀ t, (m.predict t).length = m.labels.length)
    (hlab : "label" ∉ m.labels)
    (hP : labelsMatch g m = true) : rowLookupsOk scored := by
  obtain ⟨texts, strs, htexts, hstrs, rfl⟩ := score_gold_unfold hs
  intro row hrow
  simp only [List.mem_map] at hrow
  obtain ⟨w, hw, rfl⟩ := hrow
  have hw1 : w.1 ∈ strs.map m.predict := (List.of_mem_zip hw).1
  have hw2 : w.2 ∈ g.rows := (List.of_mem_zip hw).2
  have hw1len : (w.1.map Value.float).length = m.labels.length := by
    obtain ⟨t, _, ht⟩ := List.mem_map.mp hw1
    rw [List.length_map, ← ht, hlen t]
  -- the label value of the underlying gold row
  have hPr := List.all_eq_true.mp hP w.2 hw2
  cases hA : getCell g.cols w.2 "label" with
  | none => rw [hA] at hPr; exact absurd hPr (by simp)
  | some lv =>
    rw [hA] at hPr
    cases lv with
    | int n => exact absurd hPr (by simp)
    | float q => exact absurd hPr (by simp)
    | str ls =>
      have hlsmem : ls ∈ m.labels := mem_of_contains hPr
      -- the scored row reads the same label cell
      have hlabcell : getCell (m.labels ++ g.cols)
          ((w.1.map Value.float) ++ w.2) "label"
          = getCell g.cols w.2 "label" :=
        getCell_append_right (colIdx_none_of_not_mem hlab) hw1len
      -- the score lookup lands in the score prefix
      obtain ⟨j, hj⟩ := Option.isSome_iff_exists.mp
        (colIdx_isSome_iff.mpr hlsmem)
      have hjlt : j < (w.1.map Value.float).length := by
        rw [hw1len]
        exact colIdx_lt hj
      rw [rowLabelCell]
      show (do
        let lv2 ← getCell (m.labels ++ g.cols)
          ((w.1.map Value.float) ++ w.2) "label"
        let ls2 ← lv2.asStr
        getCell (m.labels ++ g.cols) ((w.1.map Value.float) ++ w.2) ls2
          ).isSome = true
      rw [hlabcell, hA, obind_some]
      show ((Value.str ls).asStr.bind _).isSome = true
      rw [show (Value.str ls).asStr = some ls from rfl, Option.some_bind]
      simp [getCell, colIdx_append_left hj,
        List.getElem?_append_left hjlt, List.getElem?_eq_getElem
          (by rw [List.length_map] at hjlt; exact hjlt : j < w.1.length)]

/-- C8 counterexample: a model head named `label` defeats the claim as
stated.  On `lblGold` every row's label value (`label`) matches a head
name, scoring succeeds, yet `row[row['label']]` reads the score column
named `label` (a float, not a string) and the lookup fails. -/
theorem c8_counterexample :
    labelsMatch lblGold lblModel = true ∧
    (∀ t, (lblModel.predict t).length = lblModel.labels.length) ∧
    (score_gold lblGold lblModel).isSome = true ∧
    (score_gold lblGold lblModel).map
      (fun df => df.rows.map (fun r => rowLabelCell df.cols r))
      = some [none] :=
  ⟨by decide, fun t => rfl, by decide, by decide⟩

/-- C8 (amended): if every row's label value is a string naming one of
the model's output heads, each head outputs one score, and no head is
itself named `label`, then every per-row lookup `row[row['label']]`
succeeds on the scored frame, on the frame after the gold float64 cast
(the `avg_diff` stage) and after the `abs_gold_diff` column assignment
(the frame whose label slices `calculate_auc` receives); without the
precondition some lookup fails. -/
theorem c8_lookup_safety (g : DataFrame) (m : Model) (scored : DataFrame)
    (hs : score_gold g m = some scored)
    (hlen : ∀ t, (m.predict t).length = m.labels.length)
    (hlab : "label" ∉ m.labels)
    (hP : labelsMatch g m = true) :
    rowLookupsOk scored ∧
    (∀ df1, astypeFloatCol scored "gold" = some df1 →
      rowLookupsOk df1 ∧
      ∀ vals, rowLookupsOk (setColumn df1 "abs_gold_diff" vals)) ∧
    (labelsMatch badGold badModel = false ∧
      score_gold badGold badModel = some badScored ∧
      ¬ rowLookupsOk badScored) := by
  have hbase := score_gold_lookups hs hlen hlab hP
  refine ⟨hbase, ?_, by decide, by decide, by decide⟩
  intro df1 h1
  obtain ⟨i, rows1, hgi, hrows1, rfl⟩ := astypeFloatCol_unfold h1
  have hdf1 : rowLookupsOk (⟨scored.cols, rows1⟩ : DataFrame) := by
    intro r1 hr1
    obtain ⟨row, hrowm, hgq⟩ := mapO_mem_rev hrows1 hr1
    simp only [obind_eq_some, Option.pure_def, Option.some.injEq] at hgq
    obtain ⟨cell, hcell, f, hf, hset⟩ := hgq
    subst hset
    exact rowLabelCell_isSome_transfer
      (fun c h => by rw [show getCell (⟨scored.cols, rows1⟩ : DataFrame).cols
          (row.set i f) c = getCell scored.cols (row.set i f) c from rfl,
          getCell_set_isSome]; exact h)
      (fun _ => getCell_set_diff hgi (by decide))
      (hbase row hrowm)
  refine ⟨hdf1, fun vals => ?_⟩
  cases hidx : colIdx scored.cols "abs_gold_diff" with
  | some i3 =>
    have hsc : setColumn ⟨scored.cols, rows1⟩ "abs_gold_diff" vals
        = ⟨scored.cols, (rows1.zip vals).map (fun q => q.1.set i3 q.2)⟩ := by
      simp only [setColumn, hidx]
    rw [hsc]
    intro r2 hr2
    simp only [List.mem_map] at hr2
    obtain ⟨q, hq, rfl⟩ := hr2
    exact rowLabelCell_isSome_transfer
      (fun c h => by rw [getCell_set_isSome]; exact h)
      (fun _ => getCell_set_diff hidx (by decide))
      (hdf1 q.1 (List.of_mem_zip hq).1)
  | none =>
    have hsc : setColumn ⟨scored.cols, rows1⟩ "abs_gold_diff" vals
        = ⟨scored.cols ++ ["abs_gold_diff"],
           (rows1.zip vals).map (fun q => q.1 ++ [q.2])⟩ := by
      simp only [setColumn, hidx]
    rw [hsc]
    intro r2 hr2
    simp only [List.mem_map] at hr2
    obtain ⟨q, hq, rfl⟩ := hr2
    exact rowLabelCell_isSome_transfer
      (fun c h => by rw [getCell_append_of_isSome h]; exact h)
      (fun hs2 => getCell_append_of_isSome hs2)
      (hdf1 q.1 (List.of_mem_zip hq).1)

/-- Witness for C8 (amended) at the gold frame `mGold` and model `mT`. -/
theorem c8_witness :
    (score_gold mGold mT = some dfB2 ∧ "label" ∉ mT.labels ∧
      labelsMatch mGold mT = true) ∧
    (rowLookupsOk dfB2 ∧
     (∀ df1, astypeFloatCol dfB2 "gold" = some df1 →
       rowLookupsOk df1 ∧
       ∀ vals, rowLookupsOk (setColumn df1 "abs_gold_diff" vals)) ∧
     (labelsMatch badGold badModel = false ∧
       score_gold badGold badModel = some badScored ∧
       ¬ rowLookupsOk badScored)) :=
  ⟨⟨by decide, by decide, by decide⟩,
    c8_lookup_safety mGold mT dfB2 (by decide) (fun t => rfl)
      (by decide) (by decide)⟩
